import Mathlib

/-!
# ByteForward: form validation and rate limiters

A shallow embedding of `src/assets/js/main.js`: the field validator
(`validateField`, `showErrorMessage`, `removeErrorMessage`), the contact form's
submit handler, the two rate limiters (`debounce`, `throttle`) and the tick of the
security grid (`initSecurityGrid`).

JavaScript strings are sequences of UTF-16 code units; a field value is a list
of code units, so that `length` is the JavaScript `length`.
-/

namespace ByteForward

/-! ## JavaScript strings -/

/-- A JavaScript string value: its UTF-16 code units. -/
abbrev JSString := List Nat

/-- The code units of one character (a surrogate pair above the basic plane). -/
def utf16Char (c : Char) : List Nat :=
  if c.toNat < 0x10000 then [c.toNat]
  else [0xD800 + (c.toNat - 0x10000) / 0x400, 0xDC00 + (c.toNat - 0x10000) % 0x400]

/-- The JavaScript string denoted by a literal. -/
def utf16 (s : String) : JSString :=
  (s.toList.map utf16Char).flatten

/-- The code units of ECMAScript WhiteSpace and LineTerminator: what
`String.prototype.trim` strips and what the regular expression class `\s` matches. -/
def isWhiteSpace (c : Nat) : Bool :=
  c == 0x09 || c == 0x0A || c == 0x0B || c == 0x0C || c == 0x0D || c == 0x20 ||
  c == 0xA0 || c == 0x1680 || (0x2000 ≤ c && c ≤ 0x200A) ||
  c == 0x2028 || c == 0x2029 || c == 0x202F || c == 0x205F || c == 0x3000 || c == 0xFEFF

/-- The method `String.prototype.trim`: strips white space from both ends. -/
def trim (s : JSString) : JSString :=
  (s.dropWhile isWhiteSpace).rdropWhile isWhiteSpace

/-! ## Regular expressions

The only regular expression of the program is
`/^[^\s@]+@[^\s@]+\.[^\s@]+$/`: a sequence of character sets, each taken once
or one-or-more times, between the anchors `^` and `$` (no flags). -/

/-- How often an atom is taken: once, or one or more times (`+`). -/
inductive Quant
  | one
  | oneOrMore
  deriving DecidableEq, Repr

/-- An atom of a pattern: a set of code units and its quantifier. -/
structure Atom where
  set : Nat → Bool
  quant : Quant

/-- Backtracking match of a sequence of atoms against the whole rest of the
input: `+` is greedy (it first tries to take one more code unit and falls back to
the rest of the pattern); the end of the pattern is the anchor `$`. -/
def matchAtoms : List Atom → JSString → Bool
  | [], s => s.isEmpty
  | _ :: _, [] => false
  | a :: rest, c :: s =>
    match a.quant with
    | Quant.one => a.set c && matchAtoms rest s
    | Quant.oneOrMore => a.set c && (matchAtoms (a :: rest) s || matchAtoms rest s)

/-- The method `RegExp.prototype.test` for a pattern anchored at both ends. -/
def RegExp.test (pattern : List Atom) (s : JSString) : Bool :=
  matchAtoms pattern s

/-- The character set `[^\s@]`. -/
def notSpaceNorAt (c : Nat) : Bool :=
  !(isWhiteSpace c || c == 0x40)

/-- The literal `emailRegex = /^[^\s@]+@[^\s@]+\.[^\s@]+$/`. -/
def emailRegex : List Atom :=
  [⟨notSpaceNorAt, Quant.oneOrMore⟩, ⟨fun c => c == 0x40, Quant.one⟩,
   ⟨notSpaceNorAt, Quant.oneOrMore⟩, ⟨fun c => c == 0x2E, Quant.one⟩,
   ⟨notSpaceNorAt, Quant.oneOrMore⟩]

/-! ## The validation rule of `validateField` -/

/-- The two locals `isValid` and `errorMessage` of `validateField`. -/
structure ValidationResult where
  isValid : Bool
  errorMessage : String
  deriving DecidableEq, Repr

/-- The decision of `validateField`: the trimmed value, then the `switch` on the
field name (`none` is an undefined name). Strict equality selects the case; a name
that is no case label leaves `isValid = true`, `errorMessage = ''`. -/
def validate (fieldName : Option String) (rawValue : JSString) : ValidationResult :=
  let value := trim rawValue
  if fieldName = some "name" then
    if value.length < 2 then ⟨false, "Name must be at least 2 characters long."⟩
    else ⟨true, ""⟩
  else if fieldName = some "email" then
    if !RegExp.test emailRegex value then ⟨false, "Please enter a valid email address."⟩
    else ⟨true, ""⟩
  else if fieldName = some "message" then
    if value.length < 10 then ⟨false, "Message must be at least 10 characters long."⟩
    else ⟨true, ""⟩
  else ⟨true, ""⟩

/-- The message handed to `showErrorMessage`, if any: it is called only under
`if (!isValid)`. -/
def reported (r : ValidationResult) : Option String :=
  if !r.isValid then some r.errorMessage else none

/-! ## The document around a field

`validateField` reads and changes the class list of the field and the content
of `field.parentNode`. The parent's content is kept as the child nodes before the
field and the child nodes after it, each a tree. -/

/-- A node other than the field: a text node, an element with its class list and
child nodes, or an element that matches the selector `button[type="submit"]`, with
its class list, its property `disabled` and its child nodes. -/
inductive Node
  | text (data : String)
  | element (classes : List String) (children : List Node)
  | submitButton (classes : List String) (disabled : Bool) (children : List Node)
  deriving Repr

mutual
/-- The property `textContent`: the text of the descendants, in document order. -/
def Node.textContent : Node → String
  | Node.text d => d
  | Node.element _ cs => textContentList cs
  | Node.submitButton _ _ cs => textContentList cs
/-- The concatenated `textContent` of a list of sibling nodes. -/
def textContentList : List Node → String
  | [] => ""
  | n :: ns => n.textContent ++ textContentList ns
end

mutual
/-- The elements of a subtree that carry class `c`, in document order (the root first). -/
def Node.selectAll (c : String) : Node → List Node
  | Node.text _ => []
  | Node.element cls cs =>
    (if c ∈ cls then [Node.element cls cs] else []) ++ selectAllList c cs
  | Node.submitButton cls dis cs =>
    (if c ∈ cls then [Node.submitButton cls dis cs] else []) ++ selectAllList c cs
/-- The elements carrying class `c` in a list of sibling subtrees, in document order:
`querySelectorAll('.c')` over them. -/
def selectAllList (c : String) : List Node → List Node
  | [] => []
  | n :: ns => n.selectAll c ++ selectAllList c ns
end

mutual
/-- Looks for the first element of a subtree carrying class `c` and removes it:
`none` when the subtree has no such element, `some none` when the root itself is
that element (the whole subtree goes), `some (some n)` when a proper descendant
was removed and `n` is what is left. -/
def Node.removeFirst (c : String) : Node → Option (Option Node)
  | Node.text _ => none
  | Node.element cls cs =>
    if c ∈ cls then some none
    else (removeFirstList c cs).map (fun cs1 => some (Node.element cls cs1))
  | Node.submitButton cls dis cs =>
    if c ∈ cls then some none
    else (removeFirstList c cs).map (fun cs1 => some (Node.submitButton cls dis cs1))
/-- The calls `querySelector('.c')` then `remove()` over a list of sibling
subtrees: `none` when no element carries class `c`, else the list without the first
such element in document order. -/
def removeFirstList (c : String) : List Node → Option (List Node)
  | [] => none
  | n :: ns =>
    match n.removeFirst c with
    | some none => some ns
    | some (some n1) => some (n1 :: ns)
    | none => (removeFirstList c ns).map (n :: ·)
end

/-- A form field (an `input` or a `textarea`, which has no child elements)
together with the content of its parent element. When `attached` is false the
field has been removed from the document: `field.parentNode` is then `null`, and
`before ++ after` is what its former parent holds. -/
structure FieldCtx where
  name : Option String
  value : JSString
  classList : List String
  textContent : String
  attached : Bool
  before : List Node
  after : List Node
  deriving Repr

/-- The field seen as a node of its parent. -/
def FieldCtx.asNode (d : FieldCtx) : Node :=
  Node.element d.classList [Node.text d.textContent]

/-- The elements carrying class `c` that the parent holds, in document order:
`parentNode.querySelectorAll('.c')`. The field counts while it is attached. -/
def FieldCtx.selectAll (c : String) (d : FieldCtx) : List Node :=
  selectAllList c d.before ++
    (if d.attached && decide (c ∈ d.classList) then [d.asNode] else []) ++
    selectAllList c d.after

/-- The texts of the error-message elements that the parent holds. -/
def FieldCtx.errorMessages (d : FieldCtx) : List String :=
  (d.selectAll "error-message").map Node.textContent

/-- The method `classList.remove(c)`. -/
def classListRemove (l : List String) (c : String) : List String :=
  l.filter (fun x => x != c)

/-- The method `classList.add(c)`. -/
def classListAdd (l : List String) (c : String) : List String :=
  if c ∈ l then l else l ++ [c]

/-- The function `removeErrorMessage(field)`: the first element of class
`error-message` under `field.parentNode`, if any, is removed. The result is `none`
when `field.parentNode` is `null` (a TypeError is thrown). The search is in
document order: the nodes before the field, the field itself, the nodes after. -/
def removeErrorMessage (d : FieldCtx) : Option FieldCtx :=
  if !d.attached then none
  else
    match removeFirstList "error-message" d.before with
    | some b => some { d with before := b }
    | none =>
      if "error-message" ∈ d.classList then some { d with attached := false }
      else
        match removeFirstList "error-message" d.after with
        | some a => some { d with after := a }
        | none => some d

/-- The function `showErrorMessage(field, message)`: a new `span` of class
`error-message` with the message as text becomes the last child of
`field.parentNode` (its inline style is not modelled). The result is `none` when
`field.parentNode` is `null` (a TypeError is thrown). -/
def showErrorMessage (d : FieldCtx) (message : String) : Option FieldCtx :=
  if !d.attached then none
  else some { d with after := d.after ++ [Node.element ["error-message"] [Node.text message]] }

/-- The function `validateField(field)`: the returned `isValid` and the document
afterwards, or `none` when a TypeError is thrown on the way. -/
def validateField (d : FieldCtx) : Option (Bool × FieldCtx) :=
  let r := validate d.name d.value
  let d1 := { d with classList := classListRemove d.classList "error" }
  match removeErrorMessage d1 with
  | none => none
  | some d2 =>
    if !r.isValid then
      let d3 := { d2 with classList := classListAdd d2.classList "error" }
      match showErrorMessage d3 r.errorMessage with
      | none => none
      | some d4 => some (r.isValid, d4)
    else some (r.isValid, d2)

/-! ## The submit handler of the contact form -/

/-- A part of the form, in document order: the parent element of a required field
with its content, or any other node of the form. Each required field has a parent
of its own, and these parents do not contain one another. -/
inductive FormPart
  | group (d : FieldCtx)
  | other (n : Node)
  deriving Repr

mutual
/-- Looks in a subtree for the first element matching `button[type="submit"]` and
sets its `textContent` to `text` and its `disabled` to true; `none` when the
subtree has no such element. -/
def Node.sendFirst (text : String) : Node → Option Node
  | Node.text _ => none
  | Node.element cls cs => (sendFirstList text cs).map (fun cs1 => Node.element cls cs1)
  | Node.submitButton cls _ _ => some (Node.submitButton cls true [Node.text text])
/-- The same over a list of sibling subtrees, in document order. -/
def sendFirstList (text : String) : List Node → Option (List Node)
  | [] => none
  | n :: ns =>
    match n.sendFirst text with
    | some n1 => some (n1 :: ns)
    | none => (sendFirstList text ns).map (n :: ·)
end

/-- The statements `submitButton = this.querySelector('button[type="submit"]')`,
`submitButton.textContent = text`, `submitButton.disabled = true` over the parts of
the form as they are at that moment: `none` when the form holds no such button
(`submitButton` is `null` and the assignment throws a TypeError). A field is no
button; what its parent holds is searched whether the field is still attached or
not. -/
def sendFirstParts (text : String) : List FormPart → Option (List FormPart)
  | [] => none
  | FormPart.other n :: ps =>
    match n.sendFirst text with
    | some n1 => some (FormPart.other n1 :: ps)
    | none => (sendFirstParts text ps).map (FormPart.other n :: ·)
  | FormPart.group d :: ps =>
    match sendFirstList text d.before with
    | some b => some (FormPart.group { d with before := b } :: ps)
    | none =>
      match sendFirstList text d.after with
      | some a => some (FormPart.group { d with after := a } :: ps)
      | none => (sendFirstParts text ps).map (FormPart.group d :: ·)

mutual
/-- The submit buttons of a subtree, in document order: for each its `disabled` and
its `textContent`. -/
def Node.submitButtons : Node → List (Bool × String)
  | Node.text _ => []
  | Node.element _ cs => submitButtonsList cs
  | Node.submitButton _ dis cs => (dis, textContentList cs) :: submitButtonsList cs
/-- The submit buttons of a list of sibling subtrees. -/
def submitButtonsList : List Node → List (Bool × String)
  | [] => []
  | n :: ns => n.submitButtons ++ submitButtonsList ns
end

/-- The submit buttons that the form holds, in document order. -/
def formSubmitButtons : List FormPart → List (Bool × String)
  | [] => []
  | FormPart.other n :: ps => n.submitButtons ++ formSubmitButtons ps
  | FormPart.group d :: ps =>
    submitButtonsList d.before ++ submitButtonsList d.after ++ formSubmitButtons ps

/-- The loop `inputs.forEach(input => { if (!validateField(input)) isFormValid = false })`
over the required fields, in document order: the results of the calls that returned,
and the form afterwards, or `none` for it when a call threw a TypeError, which ends
the loop. -/
def forEachValidate : List FormPart → List Bool × Option (List FormPart)
  | [] => ([], some [])
  | FormPart.other n :: ps =>
    ((forEachValidate ps).1, (forEachValidate ps).2.map (FormPart.other n :: ·))
  | FormPart.group d :: ps =>
    match validateField d with
    | none => ([], none)
    | some r =>
      (r.1 :: (forEachValidate ps).1, (forEachValidate ps).2.map (FormPart.group r.2 :: ·))

/-- What the submit listener leaves behind. `threw` tells that a TypeError escaped
the listener; `calls` are the results of the calls of `validateField` that returned,
in order; `form` is the form afterwards when the loop over the fields ran to its
end. -/
structure SubmitOutcome where
  threw : Bool
  calls : List Bool
  defaultPrevented : Bool
  form : Option (List FormPart)
  deriving Repr

/-- The submit listener of `initContactForm` on the form `this`. -/
def submitHandler (form : List FormPart) : SubmitOutcome :=
  let loop := forEachValidate form
  match loop.2 with
  | none => ⟨true, loop.1, false, none⟩
  | some form1 =>
    let isFormValid := loop.1.all (fun r => r)
    if !isFormValid then ⟨false, loop.1, true, some form1⟩
    else
      match sendFirstParts "Sending..." form1 with
      | none => ⟨true, loop.1, false, some form1⟩
      | some form2 => ⟨false, loop.1, false, some form2⟩

/-! ## Sample documents -/

/-- An empty `input` named `name` that itself carries the class `error-message`,
alone in its parent: `<div><input name="name" class="error-message" value=""></div>`. -/
def errorClassField : FieldCtx :=
  { name := some "name", value := utf16 "", classList := ["error-message"],
    textContent := "", attached := true, before := [], after := [] }

/-- An `input` named `name` holding `J`, marked as errored, followed by the message
of an earlier validation. -/
def staleErrorField : FieldCtx :=
  { name := some "name", value := utf16 "J", classList := ["form-control", "error"],
    textContent := "", attached := true, before := [Node.element ["label"] [Node.text "Name"]],
    after := [Node.element ["error-message"] [Node.text "old"]] }

/-- A `textarea` named `message` holding `Short`, in a parent of its own. -/
def shortMessageField : FieldCtx :=
  { name := some "message", value := utf16 "Short", classList := [],
    textContent := "Short", attached := true, before := [], after := [] }

/-- An `input` named `email` holding `user@example.com`, in a parent of its own. -/
def goodEmailField : FieldCtx :=
  { name := some "email", value := utf16 "user@example.com", classList := [],
    textContent := "", attached := true, before := [], after := [] }

/-- An `input` named `name` holding `J` that itself carries the class
`error-message`, alone in its parent. -/
def errorClassNameField : FieldCtx :=
  { name := some "name", value := utf16 "J", classList := ["error-message"],
    textContent := "", attached := true, before := [], after := [] }

/-- The submit button as the page shows it. -/
def sendButton : Node :=
  Node.submitButton ["btn"] false [Node.text "Send Message"]

/-- A form whose first required field carries the class `error-message` and holds
`J`, whose second required field holds `Short`, followed by the submit button. -/
def errorClassForm : List FormPart :=
  [FormPart.group errorClassNameField, FormPart.group shortMessageField,
   FormPart.other sendButton]

/-- A form with a good address and a message that is too short. -/
def shortMessageForm : List FormPart :=
  [FormPart.group goodEmailField, FormPart.group shortMessageField,
   FormPart.other sendButton]

/-- A form with a good address only. -/
def goodForm : List FormPart :=
  [FormPart.group goodEmailField, FormPart.other sendButton]

/-- A form whose submit button carries the class `error-message` and comes right
after a required field holding a good address, in the same parent. -/
def errorClassButtonForm : List FormPart :=
  [FormPart.group { goodEmailField with
      after := [Node.submitButton ["error-message"] false [Node.text "Send Message"]] }]

/-! ## Timers and the event loop

The rate limiters rest on `setTimeout` and `clearTimeout`. Time is counted in
milliseconds; callbacks run one at a time, to completion. A timer never runs before
it is due; it runs when the event loop comes to it, at or after its due time, and
calls can be made in between. A schedule tells when the wrapper is called and when
the event loop comes to its timers. -/

/-- A pending timer: its handle, the time from which it may run, and its callback
(as data `κ`). -/
structure Timer (κ : Type) where
  id : Nat
  due : Nat
  callback : κ
  deriving Repr

/-- The event loop around a closure: the clock, the next timer handle, the pending
timers in the order of their creation, and the variables `σ` of the closure. -/
structure EventLoop (σ κ : Type) where
  now : Nat
  nextId : Nat
  pending : List (Timer κ)
  vars : σ
  deriving Repr

/-- The delay that `setTimeout` works with: its argument is converted to a signed
32-bit integer (taken modulo `2 ^ 32`), and a negative delay counts as 0. -/
def timerDelay (delay : Nat) : Nat :=
  if delay % 2 ^ 32 < 2 ^ 31 then delay % 2 ^ 32 else 0

/-- The call `setTimeout(callback, delay)`: the new handle and the new loop state. -/
def EventLoop.setTimeout {σ κ : Type} (L : EventLoop σ κ) (callback : κ) (delay : Nat) :
    Nat × EventLoop σ κ :=
  (L.nextId,
    { L with nextId := L.nextId + 1,
             pending := L.pending ++ [⟨L.nextId, L.now + timerDelay delay, callback⟩] })

/-- The call `clearTimeout(handle)`; `none` is `undefined`, which clears nothing. -/
def EventLoop.clearTimeout {σ κ : Type} (L : EventLoop σ κ) (handle : Option Nat) :
    EventLoop σ κ :=
  match handle with
  | none => L
  | some i => { L with pending := L.pending.filter (fun tm => tm.id != i) }

/-- The pending timer to run first: the least due time, the oldest among equals. -/
def earliest {κ : Type} : List (Timer κ) → Option (Timer κ)
  | [] => none
  | tm :: rest =>
    match earliest rest with
    | none => some tm
    | some m => if m.due < tm.due then some m else some tm

/-- The event loop comes to the timers: the first pending timer, if it is due, leaves
the pending list and its callback runs (`fire`); a timer that is not yet due stays. -/
def runTimer {σ κ : Type} (fire : κ → EventLoop σ κ → EventLoop σ κ) (L : EventLoop σ κ) :
    EventLoop σ κ :=
  match earliest L.pending with
  | none => L
  | some tm =>
    if tm.due ≤ L.now then
      fire tm.callback { L with pending := L.pending.filter (fun x => x.id != tm.id) }
    else L

/-- What happens to a wrapper: it is called at time `t` with arguments `args`, or
the event loop comes to the timers at time `t`. -/
inductive Event (α : Type)
  | call (t : Nat) (args : α)
  | timer (t : Nat)
  deriving Repr

/-- The time of an event. -/
def Event.time {α : Type} : Event α → Nat
  | Event.call t _ => t
  | Event.timer t => t

/-- One event: the clock moves to its time (it never moves back); a call runs the
wrapper's body `body`, and a timer event runs the next timer if it is due. -/
def stepEvent {σ κ α : Type} (fire : κ → EventLoop σ κ → EventLoop σ κ)
    (body : α → EventLoop σ κ → EventLoop σ κ) (L : EventLoop σ κ) :
    Event α → EventLoop σ κ
  | Event.call t args => body args { L with now := max L.now t }
  | Event.timer t => runTimer fire { L with now := max L.now t }

/-- The calls of a schedule, in order: each with its time and its arguments. -/
def callsOf {α : Type} : List (Event α) → List (Nat × α)
  | [] => []
  | Event.call t args :: es => (t, args) :: callsOf es
  | Event.timer _ :: es => callsOf es

/-- The first time at or after `t0` at which the event loop comes to the timers. -/
def firstTimerFrom {α : Type} (t0 : Nat) : List (Event α) → Option Nat
  | [] => none
  | Event.call _ _ :: es => firstTimerFrom t0 es
  | Event.timer t :: es => if t0 ≤ t then some t else firstTimerFrom t0 es

/-! ## Debounce -/

/-- The variables closed over by `debounce(func, wait)`: the handle `timeout`, and
the invocations of `func` so far, each with its time and its arguments. -/
structure DebounceVars (α : Type) where
  timeout : Option Nat
  invoked : List (Nat × α)
  deriving Repr

/-- The callback `later` of a call with arguments `args`:
`clearTimeout(timeout); func(...args)`. -/
def debounce.later {α : Type} (args : α) (L : EventLoop (DebounceVars α) α) :
    EventLoop (DebounceVars α) α :=
  let L1 := L.clearTimeout L.vars.timeout
  { L1 with vars := { L1.vars with invoked := L1.vars.invoked ++ [(L1.now, args)] } }

/-- The wrapper `executedFunction(...args)`:
`clearTimeout(timeout); timeout = setTimeout(later, wait)`. -/
def debounce.executedFunction {α : Type} (wait : Nat) (args : α)
    (L : EventLoop (DebounceVars α) α) : EventLoop (DebounceVars α) α :=
  let L1 := L.clearTimeout L.vars.timeout
  let r := L1.setTimeout args wait
  { r.2 with vars := { r.2.vars with timeout := some r.1 } }

/-- The state right after `debounce(func, wait)`: `timeout` is undefined, no timer
is pending, `func` has not been invoked. -/
def debounce {α : Type} : EventLoop (DebounceVars α) α :=
  { now := 0, nextId := 1, pending := [], vars := { timeout := none, invoked := [] } }

/-- The state of a debounced function after a schedule of events. -/
def debounce.run {α : Type} (wait : Nat) (events : List (Event α)) :
    EventLoop (DebounceVars α) α :=
  events.foldl (stepEvent debounce.later (debounce.executedFunction wait)) debounce

/-! ## Throttle

The action `func` runs inside the wrapper, before `inThrottle` is set. It is a
function on the state of the event loop, so that it may itself call the wrapper or
touch timers, and it tells whether it returned normally or threw; when it throws,
the exception leaves the wrapper at once. -/

/-- The variables closed over by `throttle(func, limit)`: the flag `inThrottle`
(undefined counts as false), and the invocations of `func` so far. -/
structure ThrottleVars (α : Type) where
  inThrottle : Bool
  invoked : List (Nat × α)
  deriving Repr

/-- The timer callback `() => inThrottle = false`. -/
def throttle.reset {α : Type} (_ : Unit) (L : EventLoop (ThrottleVars α) Unit) :
    EventLoop (ThrottleVars α) Unit :=
  { L with vars := { L.vars with inThrottle := false } }

/-- An action: what it does to the state of the event loop when it is applied to
arguments, and whether it returns normally (`true`) or throws (`false`). -/
abbrev Action (α : Type) : Type :=
  α → EventLoop (ThrottleVars α) Unit → EventLoop (ThrottleVars α) Unit × Bool

/-- The wrapper returned by `throttle`: when `inThrottle` is not set, `func` is
applied to the arguments first (the invocation is recorded, then `func` runs); only
when it has returned is `inThrottle` set and the timer started that resets it. -/
def throttle.wrapper {α : Type} (limit : Nat) (func : Action α) (args : α)
    (L : EventLoop (ThrottleVars α) Unit) : EventLoop (ThrottleVars α) Unit :=
  if !L.vars.inThrottle then
    let L1 : EventLoop (ThrottleVars α) Unit :=
      { L with vars := { L.vars with invoked := L.vars.invoked ++ [(L.now, args)] } }
    if (func args L1).2 then
      let L2 : EventLoop (ThrottleVars α) Unit :=
        { (func args L1).1 with vars := { (func args L1).1.vars with inThrottle := true } }
      (L2.setTimeout () limit).2
    else (func args L1).1
  else L

/-- An action that returns normally and leaves the wrapper and the timers alone. -/
def Action.quiet {α : Type} : Action α :=
  fun _ L => (L, true)

/-- An action that returns normally after `d` milliseconds and leaves the wrapper
and the timers alone. -/
def Action.slow {α : Type} (d : Nat) : Action α :=
  fun _ L => ({ L with now := L.now + d }, true)

/-- An action that throws. -/
def Action.throwing {α : Type} : Action α :=
  fun _ L => (L, false)

/-- An action that calls the wrapper once, with its own arguments, and returns;
inside that call the action returns at once. -/
def Action.reentrant {α : Type} (limit : Nat) : Action α :=
  fun args L => (throttle.wrapper limit Action.quiet args L, true)

/-- The state right after `throttle(func, limit)`. -/
def throttle {α : Type} : EventLoop (ThrottleVars α) Unit :=
  { now := 0, nextId := 1, pending := [], vars := { inThrottle := false, invoked := [] } }

/-- The state of a throttled function after a schedule of events. -/
def throttle.run {α : Type} (limit : Nat) (func : Action α) (events : List (Event α)) :
    EventLoop (ThrottleVars α) Unit :=
  events.foldl (stepEvent throttle.reset (throttle.wrapper limit func)) throttle

/-- The cooldown of a throttled function, told in terms of time alone: the time of
the invoking call whose cooldown is open, if any, and the invocations so far. -/
structure Cooldown (α : Type) where
  openSince : Option Nat
  invoked : List (Nat × α)
  deriving Repr

/-- One event on the cooldown. A call made while no cooldown is open invokes the
action at once, with its arguments, and opens a cooldown; a call made while a
cooldown is open is dropped. When the event loop comes to the timers at least
`limit` after the call that opened the cooldown, the cooldown is closed; nothing is
ever invoked then. -/
def Cooldown.step {α : Type} (limit : Nat) (c : Cooldown α) : Event α → Cooldown α
  | Event.call t args =>
    match c.openSince with
    | none => { openSince := some t, invoked := c.invoked ++ [(t, args)] }
    | some _ => c
  | Event.timer t =>
    match c.openSince with
    | none => c
    | some t0 => if t0 + limit ≤ t then { c with openSince := none } else c

/-- The cooldown after a schedule of events. -/
def Cooldown.run {α : Type} (limit : Nat) (events : List (Event α)) : Cooldown α :=
  events.foldl (Cooldown.step limit) { openSince := none, invoked := [] }

/-- The state of a debounced function between a call at time `t` with arguments `a`
and the run of its timer: one timer pending, due at `t + wait`, carrying `a`;
`timeout` is its handle; `func` has not been invoked. -/
def DebounceArmed {α : Type} (wait t : Nat) (a : α) (L : EventLoop (DebounceVars α) α) : Prop :=
  ∃ i, L.pending = [⟨i, t + wait, a⟩] ∧ L.vars.timeout = some i ∧ L.vars.invoked = [] ∧
    t ≤ L.now

/-- The states a throttled function can be in. While `inThrottle` is not set no
timer is pending and the last invocation, if any, is at least `limit` old; while
it is set exactly one timer is pending, due no sooner than `limit` after the last
invocation. Successive invocations are at least `limit` apart. -/
def ThrottleInv {α : Type} (limit : Nat) (L : EventLoop (ThrottleVars α) Unit) : Prop :=
  (L.vars.inThrottle = false →
    L.pending = [] ∧ ∀ e, L.vars.invoked.getLast? = some e → e.1 + limit ≤ L.now) ∧
  (L.vars.inThrottle = true →
    ∃ i d e, L.pending = [⟨i, d, ()⟩] ∧ L.vars.invoked.getLast? = some e ∧
      e.1 + limit ≤ d) ∧
  L.vars.invoked.Chain' (fun x y => x.1 + limit ≤ y.1)

/-- A schedule for a throttled function whose action takes 30 ms: calls at 0, 60,
140 and 150 ms, the event loop coming to the timers at 130 ms. -/
def sampleSlowCalls : List (Event String) :=
  [Event.call 0 "a", Event.call 60 "b", Event.timer 130, Event.call 140 "c",
   Event.call 150 "d"]

/-- How the state of a throttled function matches the cooldown: the same
invocations; no cooldown open means `inThrottle` unset and no timer pending; a
cooldown open since `t0` means `inThrottle` set and one timer pending, due at
`t0 + limit`. -/
def ThrottleRel {α : Type} (limit : Nat) (L : EventLoop (ThrottleVars α) Unit)
    (c : Cooldown α) : Prop :=
  L.vars.invoked = c.invoked ∧
  (c.openSince = none → L.vars.inThrottle = false ∧ L.pending = []) ∧
  (∀ t0, c.openSince = some t0 →
    L.vars.inThrottle = true ∧ ∃ i, L.pending = [⟨i, t0 + limit, ()⟩])

/-- The burst of the specification's example, three calls at 0, 10 and 20 ms, and
the event loop coming to the timers at 120 ms. -/
def sampleBurst : List (Event String) :=
  [Event.call 0 "a", Event.call 10 "b", Event.call 20 "c", Event.timer 120]

/-- A schedule for a throttled function: calls at 0, 1, 60, 150 and 160 ms, the
event loop coming to the timers at 50 and at 100 ms. -/
def sampleCalls : List (Event String) :=
  [Event.call 0 "a", Event.call 1 "b", Event.timer 50, Event.call 60 "c", Event.timer 100,
   Event.call 150 "d", Event.call 160 "e"]

/-! ## The security grid

Every two seconds `initSecurityGrid` clears the class `active` from all grid items
and gives it to a random choice of them. A tick is run on the values that its
expressions `Math.floor(Math.random() * k)` take, in order: one for `k = 3`, which
fixes `numActive`, then one for `k = gridItems.length` in each round of the loop.
Such a value is a whole number from `0` to `k - 1`: `Math.random()` is below 1, and
the rounded floating-point product with `k` stays below `k`. -/

/-- The guard `if (gridItems.length > 0)`: whether the interval is set up at all. -/
def initSecurityGrid.installed (gridItems : List (List String)) : Bool :=
  decide (gridItems.length > 0)

/-- The loop `while (activeIndices.length < numActive)` of a tick, on the values
of `randomIndex` still to come: an index not yet in `activeIndices` is pushed and
its grid item gets the class `active`. The result is `none` when the loop is still
running after all the given values, else `activeIndices` and the class lists of
the grid items at the end. -/
def initSecurityGrid.whileLoop (numActive : Nat) :
    List Nat → List Nat → List (List String) → Option (List Nat × List (List String))
  | [], activeIndices, gridItems =>
    if activeIndices.length < numActive then none else some (activeIndices, gridItems)
  | randomIndex :: rest, activeIndices, gridItems =>
    if activeIndices.length < numActive then
      if !activeIndices.contains randomIndex then
        initSecurityGrid.whileLoop numActive rest (activeIndices ++ [randomIndex])
          (List.modify (fun cls => classListAdd cls "active") randomIndex gridItems)
      else initSecurityGrid.whileLoop numActive rest activeIndices gridItems
    else some (activeIndices, gridItems)

/-- One tick of the interval of `initSecurityGrid`, on the class lists of the grid
items: `active` is removed from every item; `first` is the value of
`Math.floor(Math.random() * 3)`, so that `numActive = first + 2`; `indices` are the
values of `Math.floor(Math.random() * gridItems.length)` in the rounds of the loop.
The result is `none` when the tick is still running after all the given values. -/
def initSecurityGrid.tick (gridItems : List (List String)) (first : Fin 3)
    (indices : List (Fin gridItems.length)) : Option (List Nat × List (List String)) :=
  initSecurityGrid.whileLoop (first.val + 2) (indices.map (fun i => i.val)) []
    (gridItems.map (fun cls => classListRemove cls "active"))

/-- Six grid items, the third one active from the tick before. -/
def sampleGrid : List (List String) :=
  [["grid-item"], ["grid-item"], ["grid-item", "active"], ["grid-item"], ["grid-item"],
   ["grid-item"]]

/-! ## Lemmas on trimming and matching -/

theorem matchAtoms_nil (s : JSString) : matchAtoms [] s = true ↔ s = [] := by
  cases s <;> simp [matchAtoms]

theorem matchAtoms_one (p : Nat → Bool) (rest : List Atom) (s : JSString) :
    matchAtoms (⟨p, Quant.one⟩ :: rest) s = true ↔
      ∃ c t, s = c :: t ∧ p c = true ∧ matchAtoms rest t = true := by
  cases s with
  | nil => simp [matchAtoms]
  | cons c t =>
    simp only [matchAtoms, Bool.and_eq_true, List.cons.injEq]
    constructor
    · rintro ⟨hc, ht⟩
      exact ⟨c, t, ⟨rfl, rfl⟩, hc, ht⟩
    · rintro ⟨x, u, ⟨rfl, rfl⟩, hc, ht⟩
      exact ⟨hc, ht⟩

theorem matchAtoms_oneOrMore (p : Nat → Bool) (rest : List Atom) (s : JSString) :
    matchAtoms (⟨p, Quant.oneOrMore⟩ :: rest) s = true ↔
      ∃ a t, s = a ++ t ∧ a ≠ [] ∧ (∀ x ∈ a, p x = true) ∧ matchAtoms rest t = true := by
  induction s with
  | nil =>
    simp only [matchAtoms, Bool.false_eq_true, false_iff]
    rintro ⟨a, t, h, ha, -⟩
    cases a with
    | nil => exact ha rfl
    | cons x a => simp at h
  | cons c s ih =>
    simp only [matchAtoms, Bool.and_eq_true, Bool.or_eq_true, ih]
    constructor
    · rintro ⟨hc, ⟨a, t, rfl, -, hall, hrest⟩ | hrest⟩
      · refine ⟨c :: a, t, rfl, by simp, ?_, hrest⟩
        intro x hx
        rcases List.mem_cons.mp hx with rfl | hx
        · exact hc
        · exact hall x hx
      · exact ⟨[c], s, rfl, by simp, by simpa using hc, hrest⟩
    · rintro ⟨a, t, h, ha, hall, hrest⟩
      cases a with
      | nil => exact absurd rfl ha
      | cons x a =>
        simp only [List.cons_append, List.cons.injEq] at h
        obtain ⟨rfl, rfl⟩ := h
        refine ⟨hall _ (List.mem_cons_self _ _), ?_⟩
        cases a with
        | nil => exact Or.inr (by simpa using hrest)
        | cons y a =>
          exact Or.inl ⟨y :: a, t, rfl, by simp,
            fun z hz => hall z (List.mem_cons_of_mem _ hz), hrest⟩

theorem notSpaceNorAt_iff (c : Nat) :
    notSpaceNorAt c = true ↔ isWhiteSpace c = false ∧ c ≠ 0x40 := by
  simp [notSpaceNorAt]

/-- What `emailRegex.test` accepts. -/
theorem test_emailRegex_iff (t : JSString) :
    RegExp.test emailRegex t = true ↔
      ∃ a b c, t = a ++ [0x40] ++ b ++ [0x2E] ++ c ∧ a ≠ [] ∧ b ≠ [] ∧ c ≠ [] ∧
        (∀ x ∈ a, isWhiteSpace x = false ∧ x ≠ 0x40) ∧
        (∀ x ∈ b, isWhiteSpace x = false ∧ x ≠ 0x40) ∧
        (∀ x ∈ c, isWhiteSpace x = false ∧ x ≠ 0x40) := by
  simp only [RegExp.test, emailRegex, matchAtoms_oneOrMore, matchAtoms_one, matchAtoms_nil,
    notSpaceNorAt_iff, beq_iff_eq]
  constructor
  · rintro ⟨a, t1, rfl, ha, hA, x1, t2, rfl, rfl, b, t3, rfl, hb, hB, x2, t4, rfl, rfl,
      c, t5, rfl, hc, hC, rfl⟩
    exact ⟨a, b, c, by simp, ha, hb, hc, hA, hB, hC⟩
  · rintro ⟨a, b, c, rfl, ha, hb, hc, hA, hB, hC⟩
    exact ⟨a, _, by simp; rfl, ha, hA, 0x40, _, rfl, rfl, b, _, rfl, hb, hB, 0x2E, _, rfl, rfl,
      c, [], by simp, hc, hC, rfl⟩

/-! ## Lemmas on the document -/

mutual
theorem Node.removeFirst_eq_none (c : String) :
    ∀ n : Node, n.removeFirst c = none ↔ n.selectAll c = []
  | Node.text _ => by simp [Node.removeFirst, Node.selectAll]
  | Node.element cls cs => by
    have := removeFirstList_eq_none c cs
    by_cases h : c ∈ cls <;> simp [Node.removeFirst, Node.selectAll, h, this]
  | Node.submitButton cls dis cs => by
    have := removeFirstList_eq_none c cs
    by_cases h : c ∈ cls <;> simp [Node.removeFirst, Node.selectAll, h, this]
theorem removeFirstList_eq_none (c : String) :
    ∀ l : List Node, removeFirstList c l = none ↔ selectAllList c l = []
  | [] => by simp [removeFirstList, selectAllList]
  | n :: ns => by
    have h1 := Node.removeFirst_eq_none c n
    have h2 := removeFirstList_eq_none c ns
    simp only [removeFirstList, selectAllList, List.append_eq_nil, ← h1, ← h2]
    rcases h3 : n.removeFirst c with _ | _ | _ <;> simp
end

mutual
theorem Node.removeFirst_length (c : String) :
    ∀ (n : Node) (r : Option Node), n.removeFirst c = some r →
      (match r with
        | none => 0
        | some n1 => (n1.selectAll c).length) < (n.selectAll c).length
  | Node.text _, r, h => by simp [Node.removeFirst] at h
  | Node.element cls cs, r, h => by
    by_cases hc : c ∈ cls
    · simp only [Node.removeFirst, hc, if_true, Option.some.injEq] at h
      subst h
      simp [Node.selectAll, hc]
    · simp only [Node.removeFirst, hc, if_false, Option.map_eq_some'] at h
      obtain ⟨cs1, h1, rfl⟩ := h
      have := removeFirstList_length c cs cs1 h1
      simpa [Node.selectAll, hc] using this
  | Node.submitButton cls dis cs, r, h => by
    by_cases hc : c ∈ cls
    · simp only [Node.removeFirst, hc, if_true, Option.some.injEq] at h
      subst h
      simp [Node.selectAll, hc]
    · simp only [Node.removeFirst, hc, if_false, Option.map_eq_some'] at h
      obtain ⟨cs1, h1, rfl⟩ := h
      have := removeFirstList_length c cs cs1 h1
      simpa [Node.selectAll, hc] using this
theorem removeFirstList_length (c : String) :
    ∀ (l l1 : List Node), removeFirstList c l = some l1 →
      (selectAllList c l1).length < (selectAllList c l).length
  | [], _, h => by simp [removeFirstList] at h
  | n :: ns, l1, h => by
    rcases h3 : n.removeFirst c with _ | _ | n1
    · simp only [removeFirstList, h3, Option.map_eq_some'] at h
      obtain ⟨m, hm, rfl⟩ := h
      have := removeFirstList_length c ns m hm
      simpa [selectAllList] using this
    · simp only [removeFirstList, h3, Option.some.injEq] at h
      subst h
      have := Node.removeFirst_length c n none h3
      simp only [selectAllList, List.length_append]
      simp only at this
      omega
    · simp only [removeFirstList, h3, Option.some.injEq] at h
      subst h
      have := Node.removeFirst_length c n (some n1) h3
      simp only [selectAllList, List.length_append]
      simp only at this
      omega
end

theorem selectAllList_append (c : String) (l m : List Node) :
    selectAllList c (l ++ m) = selectAllList c l ++ selectAllList c m := by
  induction l with
  | nil => simp [selectAllList]
  | cons n ns ih => simp [selectAllList, ih]

theorem mem_classListRemove (l : List String) (c x : String) :
    x ∈ classListRemove l c ↔ x ∈ l ∧ x ≠ c := by
  simp [classListRemove]

theorem mem_classListAdd (l : List String) (c x : String) :
    x ∈ classListAdd l c ↔ x ∈ l ∨ x = c := by
  unfold classListAdd
  by_cases h : c ∈ l
  · simp only [h, if_true]
    constructor
    · exact Or.inl
    · rintro (hx | rfl)
      · exact hx
      · exact h
  · simp [h]

/-- With at most one error-message element under the parent, `removeErrorMessage`
leaves none; the field stays attached unless it was that element. -/
theorem removeErrorMessage_spec (d : FieldCtx) (hatt : d.attached = true)
    (hone : (d.selectAll "error-message").length ≤ 1) :
    ∃ d2, removeErrorMessage d = some d2 ∧ d2.selectAll "error-message" = [] ∧
      d2.classList = d.classList ∧ d2.name = d.name ∧ d2.value = d.value ∧
      ("error-message" ∉ d.classList → d2.attached = true) := by
  unfold removeErrorMessage
  simp only [FieldCtx.selectAll, hatt, Bool.true_and, List.length_append] at hone
  simp only [hatt, Bool.not_true, Bool.false_eq_true, if_false]
  cases hb : removeFirstList "error-message" d.before with
  | some b =>
    have hlen := removeFirstList_length _ _ _ hb
    have hf : ¬ ("error-message" ∈ d.classList) := by
      intro hf
      simp only [hf, decide_True, if_true, List.length_singleton] at hone
      omega
    refine ⟨_, rfl, ?_, rfl, rfl, rfl, fun _ => by simp [hatt]⟩
    simp only [hf, decide_False, Bool.false_eq_true, if_false, List.length_nil] at hone
    simp only [FieldCtx.selectAll, hatt, hf, decide_False, Bool.and_false, Bool.false_eq_true,
      if_false, List.append_nil, ← List.length_eq_zero, List.length_append]
    omega
  | none =>
    have hb0 := (removeFirstList_eq_none _ _).mp hb
    simp only [hb0, List.length_nil, Nat.zero_add] at hone
    by_cases hf : "error-message" ∈ d.classList
    · simp only [hf, decide_True, if_true, List.length_singleton] at hone
      simp only [hf, if_true]
      refine ⟨_, rfl, ?_, rfl, rfl, rfl, fun h => absurd trivial h⟩
      simp only [FieldCtx.selectAll, hb0, Bool.false_and, Bool.false_eq_true, if_false,
        List.append_nil, List.nil_append, ← List.length_eq_zero, List.length_append]
      omega
    · simp only [hf, decide_False, Bool.false_eq_true, if_false, List.length_nil,
        Nat.zero_add] at hone
      simp only [hf, if_false]
      cases ha : removeFirstList "error-message" d.after with
      | some a =>
        have hlen := removeFirstList_length _ _ _ ha
        refine ⟨_, rfl, ?_, rfl, rfl, rfl, fun _ => by simp [hatt]⟩
        simp only [FieldCtx.selectAll, hb0, hatt, hf, decide_False, Bool.and_false,
          Bool.false_eq_true, if_false, List.append_nil, List.nil_append,
          ← List.length_eq_zero, List.length_append]
        omega
      | none =>
        have ha0 := (removeFirstList_eq_none _ _).mp ha
        refine ⟨_, rfl, ?_, rfl, rfl, rfl, fun _ => by simp [hatt]⟩
        simp [FieldCtx.selectAll, hb0, ha0, hf]

/-! ## The validator's contract -/

/-- C1: a field named `name` is valid exactly when its trimmed value has at
least 2 code units; the empty string and every string of white space only (such as
the white space of any `s`) are invalid. -/
theorem validate_name_iff (s : JSString) :
    ((validate (some "name") s).isValid = true ↔ 2 ≤ (trim s).length) ∧
      (validate (some "name") (utf16 "")).isValid = false ∧
      (validate (some "name") (s.filter isWhiteSpace)).isValid = false := by
  have hiff : ∀ u : JSString,
      (validate (some "name") u).isValid = true ↔ 2 ≤ (trim u).length := by
    intro u
    unfold validate
    by_cases h : (trim u).length < 2
    · simp [h]
    · simp only [h]
      simpa using h
  refine ⟨hiff s, by decide, ?_⟩
  have hws : trim (s.filter isWhiteSpace) = [] := by
    have h1 : (s.filter isWhiteSpace).dropWhile isWhiteSpace = [] := by
      rw [List.dropWhile_eq_nil_iff]
      intro x hx
      exact (List.mem_filter.mp hx).2
    simp [trim, h1]
  have := hiff (s.filter isWhiteSpace)
  rw [hws] at this
  cases hv : (validate (some "name") (s.filter isWhiteSpace)).isValid with
  | false => rfl
  | true => exact absurd (this.mp hv) (by decide)

/-- C2: a field named `message` is valid exactly when its trimmed value has at
least 10 code units. -/
theorem validate_message_iff (s : JSString) :
    (validate (some "message") s).isValid = true ↔ 10 ≤ (trim s).length := by
  unfold validate
  by_cases h : (trim s).length < 10
  · simp [h]
  · simp only [h]
    simpa using h

/-- C3: a field named `email` is valid exactly when its trimmed value is
`a ++ "@" ++ b ++ "." ++ c` with `a`, `b`, `c` non-empty and free of white space
and of `@`; the four addresses of the tests are accepted and the four malformed
ones rejected. -/
theorem validate_email_iff :
    (∀ s : JSString, (validate (some "email") s).isValid = true ↔
      ∃ a b c, trim s = a ++ utf16 "@" ++ b ++ utf16 "." ++ c ∧
        a ≠ [] ∧ b ≠ [] ∧ c ≠ [] ∧
        (∀ x ∈ a, isWhiteSpace x = false ∧ x ≠ 0x40) ∧
        (∀ x ∈ b, isWhiteSpace x = false ∧ x ≠ 0x40) ∧
        (∀ x ∈ c, isWhiteSpace x = false ∧ x ≠ 0x40)) ∧
    (validate (some "email") (utf16 "user@example.com")).isValid = true ∧
    (validate (some "email") (utf16 "test@example.com")).isValid = true ∧
    (validate (some "email") (utf16 "user.name@domain.co.uk")).isValid = true ∧
    (validate (some "email") (utf16 "test+tag@example.org")).isValid = true ∧
    (validate (some "email") (utf16 "invalid-email")).isValid = false ∧
    (validate (some "email") (utf16 "test@")).isValid = false ∧
    (validate (some "email") (utf16 "@example.com")).isValid = false ∧
    (validate (some "email") (utf16 "test@.com")).isValid = false := by
  refine ⟨?_, by decide, by decide, by decide, by decide, by decide, by decide, by decide,
    by decide⟩
  intro s
  have hat : utf16 "@" = [0x40] := by decide
  have hdot : utf16 "." = [0x2E] := by decide
  rw [hat, hdot, ← test_emailRegex_iff]
  unfold validate
  cases h : RegExp.test emailRegex (trim s) <;> simp [h]

/-- C4: for the three kinds, the message handed to `showErrorMessage` is the
fixed text of the kind when the value is invalid, and there is none when it is
valid (`errorMessage` is then still the empty string). -/
theorem validate_message_text (v : JSString) :
    (reported (validate (some "name") v) =
        if (validate (some "name") v).isValid then none
        else some "Name must be at least 2 characters long.") ∧
    (reported (validate (some "email") v) =
        if (validate (some "email") v).isValid then none
        else some "Please enter a valid email address.") ∧
    (reported (validate (some "message") v) =
        if (validate (some "message") v).isValid then none
        else some "Message must be at least 10 characters long.") ∧
    (validate (some "name") v).errorMessage =
      (if (validate (some "name") v).isValid then ""
       else "Name must be at least 2 characters long.") ∧
    (validate (some "email") v).errorMessage =
      (if (validate (some "email") v).isValid then ""
       else "Please enter a valid email address.") ∧
    (validate (some "message") v).errorMessage =
      (if (validate (some "message") v).isValid then ""
       else "Message must be at least 10 characters long.") := by
  unfold reported validate
  refine ⟨?_, ?_, ?_, ?_, ?_, ?_⟩
  · by_cases h : (trim v).length < 2 <;> simp [h]
  · cases h : RegExp.test emailRegex (trim v) <;> simp [h]
  · by_cases h : (trim v).length < 10 <;> simp [h]
  · by_cases h : (trim v).length < 2 <;> simp [h]
  · cases h : RegExp.test emailRegex (trim v) <;> simp [h]
  · by_cases h : (trim v).length < 10 <;> simp [h]

/-- C5: a field whose name is none of `name`, `email`, `message` (an undefined
name included) is valid for every value, and no message is reported. -/
theorem validate_other_kind (kind : Option String) (v : JSString)
    (hn : kind ≠ some "name") (he : kind ≠ some "email") (hm : kind ≠ some "message") :
    (validate kind v).isValid = true ∧ reported (validate kind v) = none := by
  unfold reported validate
  simp [hn, he, hm]

/-- The undefined name and the empty name are such kinds. -/
theorem validate_other_kind_witness :
    ((validate none (utf16 "")).isValid = true ∧
      reported (validate none (utf16 "")) = none) ∧
    ((validate (some "") (utf16 "x")).isValid = true ∧
      reported (validate (some "") (utf16 "x")) = none) :=
  ⟨validate_other_kind none (utf16 "") (by decide) (by decide) (by decide),
   validate_other_kind (some "") (utf16 "x") (by decide) (by decide) (by decide)⟩

/-! ## The effects of `validateField` on the document -/

/-- C9, as stated, fails: an empty `name` field that itself carries the class
`error-message` is the only error-message element of its parent, and
`validateField` removes it from the parent and then throws in `showErrorMessage`:
no result is returned. -/
theorem validateField_throws_on_errorClassField :
    errorClassField.attached = true ∧ errorClassField.errorMessages.length ≤ 1 ∧
      (validate errorClassField.name errorClassField.value).isValid = false ∧
      (validateField errorClassField).isNone = true := by
  decide

/-- C9, amended: for a field in a parent holding at most one error-message
element, which does not itself carry the class `error-message` unless its value is
valid, `validateField` returns the decision of the rule; afterwards the field
carries `error` exactly when the result is false, and the parent holds exactly one
error-message element with the failure message when the result is false and none
when it is true. -/
theorem validateField_dom (d : FieldCtx) (hatt : d.attached = true)
    (hone : d.errorMessages.length ≤ 1)
    (hcls : "error-message" ∈ d.classList → (validate d.name d.value).isValid = true) :
    ∃ d1, validateField d = some ((validate d.name d.value).isValid, d1) ∧
      ("error" ∈ d1.classList ↔ (validate d.name d.value).isValid = false) ∧
      d1.errorMessages =
        (if (validate d.name d.value).isValid then []
         else [(validate d.name d.value).errorMessage]) := by
  have hmem : ∀ l : List String,
      "error-message" ∈ classListRemove l "error" ↔ "error-message" ∈ l := by
    intro l
    rw [mem_classListRemove]
    exact ⟨fun h => h.1, fun h => ⟨h, by decide⟩⟩
  obtain ⟨d2, h2, hsel, hcl, hname, hval, hatt2⟩ :=
    removeErrorMessage_spec { d with classList := classListRemove d.classList "error" } hatt
      (by
        simp only [FieldCtx.errorMessages, List.length_map, FieldCtx.selectAll,
          List.length_append, apply_ite List.length] at hone
        simpa only [FieldCtx.selectAll, hmem, List.length_append,
          apply_ite List.length] using hone)
  simp only [hmem] at hatt2
  simp only at hcl hname hval
  unfold validateField
  simp only [h2]
  cases hv : (validate d.name d.value).isValid with
  | true =>
    refine ⟨d2, by simp, ?_, ?_⟩
    · simp [hcl, mem_classListRemove]
    · simp [FieldCtx.errorMessages, hsel]
  | false =>
    have hnc : "error-message" ∉ d.classList := by
      intro h
      rw [hcls h] at hv
      exact absurd hv (by decide)
    have ha2 := hatt2 hnc
    simp only [Bool.not_false, if_true, showErrorMessage, ha2, Bool.not_true,
      Bool.false_eq_true, if_false]
    refine ⟨_, rfl, ?_, ?_⟩
    · simp [mem_classListAdd]
    · have hsel2 := hsel
      simp only [FieldCtx.selectAll, ha2, Bool.true_and, List.append_eq_nil] at hsel2
      obtain ⟨⟨hb, hf⟩, ha⟩ := hsel2
      have hf2 : "error-message" ∉ d2.classList := by
        rw [hcl, hmem]
        exact hnc
      have hf3 : "error-message" ∉ classListAdd d2.classList "error" := by
        rw [mem_classListAdd]
        rintro (h | h)
        · exact hf2 h
        · exact absurd h (by decide)
      simp [FieldCtx.errorMessages, FieldCtx.selectAll, ha2, hb, ha, hf3,
        selectAllList_append, selectAllList, Node.selectAll, Node.textContent,
        textContentList]

/-- A field marked as errored with a stale message, still invalid: the stale
message is replaced by the fixed text of the `name` rule. -/
theorem validateField_dom_witness :
    ∃ d1, validateField staleErrorField =
        some ((validate staleErrorField.name staleErrorField.value).isValid, d1) ∧
      ("error" ∈ d1.classList ↔
        (validate staleErrorField.name staleErrorField.value).isValid = false) ∧
      d1.errorMessages =
        (if (validate staleErrorField.name staleErrorField.value).isValid then []
         else [(validate staleErrorField.name staleErrorField.value).errorMessage]) :=
  validateField_dom staleErrorField (by decide) (by decide) (by decide)

/-! ## The submit handler -/

theorem removeErrorMessage_attached (d : FieldCtx) (hatt : d.attached = true)
    (hcls : "error-message" ∉ d.classList) :
    ∃ d2, removeErrorMessage d = some d2 ∧ d2.attached = true := by
  unfold removeErrorMessage
  simp only [hatt, Bool.not_true, Bool.false_eq_true, if_false, hcls]
  cases removeFirstList "error-message" d.before with
  | some b => exact ⟨_, rfl, by simp [hatt]⟩
  | none =>
    cases removeFirstList "error-message" d.after with
    | some a => exact ⟨_, rfl, by simp [hatt]⟩
    | none => exact ⟨_, rfl, hatt⟩

/-- An attached field that does not carry the class `error-message`: the call
returns, with the decision of the rule. -/
theorem validateField_returns (d : FieldCtx) (hatt : d.attached = true)
    (hcls : "error-message" ∉ d.classList) :
    ∃ d1, validateField d = some ((validate d.name d.value).isValid, d1) := by
  obtain ⟨d2, h2, ha2⟩ :=
    removeErrorMessage_attached { d with classList := classListRemove d.classList "error" } hatt
      (by
        rw [mem_classListRemove]
        exact fun h => hcls h.1)
  unfold validateField
  simp only [h2]
  cases hv : (validate d.name d.value).isValid with
  | true => exact ⟨d2, by simp⟩
  | false =>
    simp only [Bool.not_false, if_true, showErrorMessage, ha2, Bool.not_true,
      Bool.false_eq_true, if_false]
    exact ⟨_, rfl⟩

/-- C10: on a form whose first required field carries the class `error-message`
and holds `J`, whose second required field holds `Short`, and which has a submit
button, the listener throws inside the first call of `validateField`: no call
returns, the second field is not validated and `preventDefault` is not called,
although both values are invalid. -/
theorem submitHandler_throws_on_errorClassForm :
    (submitHandler errorClassForm).threw = true ∧
      (submitHandler errorClassForm).calls = [] ∧
      (submitHandler errorClassForm).defaultPrevented = false ∧
      (validate errorClassNameField.name errorClassNameField.value).isValid = false ∧
      (validate shortMessageField.name shortMessageField.value).isValid = false := by
  decide

/-- On a form with a good address and a message that is too short both fields are
validated and `preventDefault` is called; the button stays as it was. -/
theorem submitHandler_shortMessageForm :
    (submitHandler shortMessageForm).threw = false ∧
      (submitHandler shortMessageForm).calls = [true, false] ∧
      (submitHandler shortMessageForm).defaultPrevented = true ∧
      (submitHandler shortMessageForm).form.map formSubmitButtons =
        some [(false, "Send Message")] := by
  decide

/-- On a form whose only required field is valid, `preventDefault` is not called
and the button is disabled, with the text `Sending...`. -/
theorem submitHandler_goodForm :
    (submitHandler goodForm).threw = false ∧
      (submitHandler goodForm).calls = [true] ∧
      (submitHandler goodForm).defaultPrevented = false ∧
      (submitHandler goodForm).form.map formSubmitButtons = some [(true, "Sending...")] := by
  decide

/-- A submit button that carries the class `error-message` next to a required
field is removed by `removeErrorMessage`; the listener then finds no button and
throws. -/
theorem submitHandler_errorClassButtonForm :
    (submitHandler errorClassButtonForm).threw = true ∧
      (submitHandler errorClassButtonForm).calls = [true] ∧
      (submitHandler errorClassButtonForm).defaultPrevented = false ∧
      (submitHandler errorClassButtonForm).form.map formSubmitButtons = some [] := by
  decide

/-! ## Timers -/

theorem earliest_eq_none {κ : Type} (l : List (Timer κ)) : earliest l = none ↔ l = [] := by
  cases l with
  | nil => simp [earliest]
  | cons tm rest =>
    simp only [earliest]
    cases earliest rest with
    | none => simp
    | some m => by_cases h : m.due < tm.due <;> simp [h]

theorem earliest_least {κ : Type} (l : List (Timer κ)) :
    ∀ m, earliest l = some m → m ∈ l ∧ ∀ x ∈ l, m.due ≤ x.due := by
  induction l with
  | nil => simp [earliest]
  | cons tm rest ih =>
    intro m hm
    simp only [earliest] at hm
    cases hr : earliest rest with
    | none =>
      have hnil := (earliest_eq_none rest).mp hr
      simp only [hr, Option.some.injEq] at hm
      subst hm
      subst hnil
      simp
    | some r =>
      obtain ⟨hmem, hle⟩ := ih r hr
      simp only [hr] at hm
      by_cases h : r.due < tm.due
      · simp only [h, if_true, Option.some.injEq] at hm
        subst hm
        refine ⟨List.mem_cons_of_mem _ hmem, ?_⟩
        intro x hx
        rcases List.mem_cons.mp hx with rfl | hx
        · omega
        · exact hle x hx
      · simp only [h, if_false, Option.some.injEq] at hm
        subst hm
        refine ⟨List.mem_cons_self _ _, ?_⟩
        intro x hx
        rcases List.mem_cons.mp hx with rfl | hx
        · exact le_refl _
        · have := hle x hx
          omega

theorem timerDelay_of_lt (delay : Nat) (h : delay < 2 ^ 31) : timerDelay delay = delay := by
  unfold timerDelay
  have h2 : delay % 2 ^ 32 = delay := Nat.mod_eq_of_lt (by omega)
  rw [h2, if_pos h]

theorem mem_of_mem_callsOf {α : Type} (c : Nat × α) :
    ∀ events : List (Event α), c ∈ callsOf events → Event.call c.1 c.2 ∈ events
  | [], h => by simp [callsOf] at h
  | Event.call t a :: es, h => by
    simp only [callsOf, List.mem_cons] at h
    rcases h with rfl | h
    · exact List.mem_cons_self _ _
    · exact List.mem_cons_of_mem _ (mem_of_mem_callsOf c es h)
  | Event.timer t :: es, h => by
    simp only [callsOf] at h
    exact List.mem_cons_of_mem _ (mem_of_mem_callsOf c es h)

theorem callsOf_append {α : Type} (p q : List (Event α)) :
    callsOf (p ++ q) = callsOf p ++ callsOf q := by
  induction p with
  | nil => rfl
  | cons e es ih =>
    cases e with
    | call t a => simp [callsOf, ih]
    | timer t => simp [callsOf, ih]

/-! ## Debounce: one invocation per burst -/

/-- Once the timer has run, events that are no calls change nothing. -/
theorem debounce_timers_only {α : Type} (wait : Nat) :
    ∀ (events : List (Event α)) (L : EventLoop (DebounceVars α) α), L.pending = [] →
      callsOf events = [] →
      (events.foldl (stepEvent debounce.later (debounce.executedFunction wait)) L).vars.invoked =
        L.vars.invoked := by
  intro events
  induction events with
  | nil => intro L _ _; rfl
  | cons e es ih =>
    intro L hp hc
    cases e with
    | call t a => simp [callsOf] at hc
    | timer t =>
      simp only [callsOf] at hc
      simp only [List.foldl_cons]
      have hstep : stepEvent debounce.later (debounce.executedFunction wait) L (Event.timer t) =
          { L with now := max L.now t } := by
        simp [stepEvent, runTimer, hp, earliest]
      rw [hstep]
      exact ih { L with now := max L.now t } hp hc

theorem debounce_call_armed {α : Type} (wait : Nat) (hlt : wait < 2 ^ 31)
    (L : EventLoop (DebounceVars α) α) (u : Nat) (b : α) (hnow : L.now ≤ u)
    (hp : L.pending = [] ∨ ∃ i d a, L.pending = [⟨i, d, a⟩] ∧ L.vars.timeout = some i)
    (hinv : L.vars.invoked = []) :
    DebounceArmed wait u b
      (stepEvent debounce.later (debounce.executedFunction wait) L (Event.call u b)) := by
  have hd := timerDelay_of_lt wait hlt
  rcases hp with hp | ⟨i, d, a, hp, hto⟩
  · refine ⟨L.nextId, ?_, ?_, ?_, ?_⟩
    · cases hto : L.vars.timeout <;>
        simp [stepEvent, debounce.executedFunction, EventLoop.clearTimeout,
          EventLoop.setTimeout, hp, hto, hd, hnow]
    · cases hto : L.vars.timeout <;>
        simp [stepEvent, debounce.executedFunction, EventLoop.clearTimeout,
          EventLoop.setTimeout, hto]
    · cases hto : L.vars.timeout <;>
        simp [stepEvent, debounce.executedFunction, EventLoop.clearTimeout,
          EventLoop.setTimeout, hto, hinv]
    · cases hto : L.vars.timeout <;>
        simp [stepEvent, debounce.executedFunction, EventLoop.clearTimeout,
          EventLoop.setTimeout, hto]
  · refine ⟨L.nextId, ?_, ?_, ?_, ?_⟩ <;>
      simp [stepEvent, debounce.executedFunction, EventLoop.clearTimeout,
        EventLoop.setTimeout, hp, hto, hd, hnow, hinv]

/-- From the state between a call and the run of its timer: the invocations after
any part of the rest of the burst. -/
theorem debounce_from_armed {α : Type} (wait : Nat) (hlt : wait < 2 ^ 31) :
    ∀ (events : List (Event α)) (L : EventLoop (DebounceVars α) α) (t : Nat) (a : α),
      DebounceArmed wait t a L → (∀ e ∈ events, L.now ≤ e.time) →
      events.Pairwise (fun x y => x.time ≤ y.time) →
      List.Chain (fun x y => y.1 < x.1 + wait) (t, a) (callsOf events) →
      ∀ tN aN, ((t, a) :: callsOf events).getLast? = some (tN, aN) →
      ∀ p q, events = p ++ q →
        (p.foldl (stepEvent debounce.later (debounce.executedFunction wait)) L).vars.invoked =
          ((firstTimerFrom (tN + wait) p).map (fun T => (T, aN))).toList := by
  intro events
  induction events with
  | nil =>
    intro L t a hA _ _ _ tN aN _ p q hpq
    obtain ⟨i, -, -, hinv, -⟩ := hA
    have hp : p = [] := (List.append_eq_nil.mp hpq.symm).1
    subst hp
    simpa [firstTimerFrom] using hinv
  | cons e es ih =>
    intro L t a hA hnow hsorted hchain tN aN hlast p q hpq
    have hA2 := hA
    obtain ⟨i, hpend, hto, hinv, htnow⟩ := hA2
    cases p with
    | nil => simpa [firstTimerFrom] using hinv
    | cons e2 p2 =>
      simp only [List.cons_append, List.cons.injEq] at hpq
      obtain ⟨rfl, hes⟩ := hpq
      have hle : L.now ≤ e.time := hnow e (List.mem_cons_self _ _)
      rw [List.pairwise_cons] at hsorted
      simp only [List.foldl_cons]
      cases e with
      | call u b =>
        simp only [Event.time] at hle
        simp only [callsOf, List.chain_cons] at hchain
        have hA3 := debounce_call_armed wait hlt L u b hle (Or.inr ⟨i, _, a, hpend, hto⟩) hinv
        have hnow3 : ∀ e ∈ es,
            (stepEvent debounce.later (debounce.executedFunction wait) L
              (Event.call u b)).now ≤ e.time := by
          intro e he
          have h1 : u ≤ e.time := hsorted.1 e he
          simp only [stepEvent, debounce.executedFunction, EventLoop.clearTimeout,
            EventLoop.setTimeout, hto]
          omega
        have hlast3 : ((u, b) :: callsOf es).getLast? = some (tN, aN) := by
          simpa [callsOf] using hlast
        have := ih _ u b hA3 hnow3 hsorted.2 hchain.2 tN aN hlast3 p2 q hes
        simpa [firstTimerFrom] using this
      | timer T =>
        simp only [Event.time] at hle
        simp only [callsOf] at hchain hlast
        by_cases hdue : t + wait ≤ T
        · have hnocalls : callsOf es = [] := by
            cases hc : callsOf es with
            | nil => rfl
            | cons c cs =>
              rw [hc, List.chain_cons] at hchain
              have hmem : Event.call c.1 c.2 ∈ es :=
                mem_of_mem_callsOf c es (by rw [hc]; exact List.mem_cons_self _ _)
              have h1 := hsorted.1 _ hmem
              simp only [Event.time] at h1
              have h2 := hchain.1
              simp only at h2
              omega
          rw [hnocalls] at hlast
          simp only [List.getLast?_singleton, Option.some.injEq, Prod.mk.injEq] at hlast
          obtain ⟨rfl, rfl⟩ := hlast
          have hstep : stepEvent debounce.later (debounce.executedFunction wait) L
              (Event.timer T) =
              { now := T, nextId := L.nextId, pending := [],
                vars := { timeout := some i, invoked := [(T, a)] } } := by
            have hmax : max L.now T = T := by omega
            simp [stepEvent, runTimer, hpend, earliest, hmax, hdue, debounce.later,
              EventLoop.clearTimeout, hto, hinv]
          have hnc2 : callsOf p2 = [] := by
            have h3 := hnocalls
            rw [hes, callsOf_append, List.append_eq_nil] at h3
            exact h3.1
          rw [hstep, debounce_timers_only wait p2 _ rfl hnc2]
          simp [firstTimerFrom, hdue]
        · have hstep : stepEvent debounce.later (debounce.executedFunction wait) L
              (Event.timer T) = { L with now := max L.now T } := by
            have hmax : max L.now T = T := by omega
            simp [stepEvent, runTimer, hpend, earliest, hmax, hdue]
          have hA3 : DebounceArmed wait t a { L with now := max L.now T } :=
            ⟨i, hpend, hto, hinv, le_trans htnow (le_max_left _ _)⟩
          have hnow3 : ∀ e ∈ es, ({ L with now := max L.now T } :
              EventLoop (DebounceVars α) α).now ≤ e.time := by
            intro e he
            have h1 : T ≤ e.time := hsorted.1 e he
            have h2 := hnow e (List.mem_cons_of_mem _ he)
            simp only
            omega
          have htN : t ≤ tN := by
            cases hc : callsOf es with
            | nil =>
              rw [hc] at hlast
              simp only [List.getLast?_singleton, Option.some.injEq, Prod.mk.injEq] at hlast
              omega
            | cons c cs =>
              have hmemN : (tN, aN) ∈ callsOf es := by
                rw [hc] at hlast ⊢
                rw [List.getLast?_cons_cons] at hlast
                exact List.mem_of_getLast?_eq_some hlast
              have hmem := mem_of_mem_callsOf (tN, aN) es hmemN
              have h2 := hnow _ (List.mem_cons_of_mem _ hmem)
              simp only [Event.time] at h2
              omega
          rw [hstep]
          have := ih _ t a hA3 hnow3 hsorted.2 hchain tN aN hlast p2 q hes
          have hnot : ¬ (tN + wait ≤ T) := by omega
          simpa [firstTimerFrom, hnot] using this

/-- From a state with no timer pending and no invocation: the invocations after any
part of a burst. -/
theorem debounce_from_quiet {α : Type} (wait : Nat) (hpos : 0 < wait) (hlt : wait < 2 ^ 31) :
    ∀ (events : List (Event α)) (L : EventLoop (DebounceVars α) α),
      L.pending = [] → L.vars.invoked = [] → (∀ e ∈ events, L.now ≤ e.time) →
      events.Pairwise (fun x y => x.time ≤ y.time) →
      (callsOf events).Chain' (fun x y => y.1 < x.1 + wait) →
      ∀ tN aN, (callsOf events).getLast? = some (tN, aN) →
      ∀ p q, events = p ++ q →
        (p.foldl (stepEvent debounce.later (debounce.executedFunction wait)) L).vars.invoked =
          ((firstTimerFrom (tN + wait) p).map (fun T => (T, aN))).toList := by
  intro events
  induction events with
  | nil =>
    intro L _ _ _ _ _ tN aN hlast
    simp [callsOf] at hlast
  | cons e es ih =>
    intro L hpend hinv hnow hsorted hchain tN aN hlast p q hpq
    cases p with
    | nil => simpa [firstTimerFrom] using hinv
    | cons e2 p2 =>
      simp only [List.cons_append, List.cons.injEq] at hpq
      obtain ⟨rfl, hes⟩ := hpq
      have hle : L.now ≤ e.time := hnow e (List.mem_cons_self _ _)
      rw [List.pairwise_cons] at hsorted
      simp only [List.foldl_cons]
      cases e with
      | call u b =>
        simp only [Event.time] at hle
        simp only [callsOf] at hchain hlast
        have hA3 := debounce_call_armed wait hlt L u b hle (Or.inl hpend) hinv
        have hnow3 : ∀ e ∈ es,
            (stepEvent debounce.later (debounce.executedFunction wait) L
              (Event.call u b)).now ≤ e.time := by
          intro e he
          have h1 : u ≤ e.time := hsorted.1 e he
          cases hto : L.vars.timeout <;>
            simp only [stepEvent, debounce.executedFunction, EventLoop.clearTimeout,
              EventLoop.setTimeout, hto] <;> omega
        have := debounce_from_armed wait hlt es _ u b hA3 hnow3 hsorted.2 hchain tN aN hlast
          p2 q hes
        simpa [firstTimerFrom] using this
      | timer T =>
        simp only [Event.time] at hle
        simp only [callsOf] at hchain hlast
        have hstep : stepEvent debounce.later (debounce.executedFunction wait) L
            (Event.timer T) = { L with now := max L.now T } := by
          simp [stepEvent, runTimer, hpend, earliest]
        have hnow3 : ∀ e ∈ es, ({ L with now := max L.now T } :
            EventLoop (DebounceVars α) α).now ≤ e.time := by
          intro e he
          have h1 : T ≤ e.time := hsorted.1 e he
          have h2 := hnow e (List.mem_cons_of_mem _ he)
          simp only
          omega
        have htN : T ≤ tN := by
          have hmem := mem_of_mem_callsOf (tN, aN) es (List.mem_of_getLast?_eq_some hlast)
          exact hsorted.1 _ hmem
        rw [hstep]
        have := ih { L with now := max L.now T } hpend hinv hnow3 hsorted.2 hchain tN aN hlast
          p2 q hes
        have hnot : ¬ (tN + wait ≤ T) := by omega
        simpa [firstTimerFrom, hnot] using this

/-- C6, amended: for `0 < wait < 2 ^ 31` and a schedule with non-decreasing times
whose calls each come less than `wait` after the call before, the last call being
at `tN` with arguments `aN`: at every moment of the schedule `func` has not been
invoked as long as the event loop has not come to the timers at or after
`tN + wait`, and from then on it has been invoked exactly once, at that time and
with the arguments `aN`. -/
theorem debounce_burst {α : Type} (wait : Nat) (hpos : 0 < wait) (hlt : wait < 2 ^ 31)
    (events : List (Event α)) (hsorted : events.Pairwise (fun x y => x.time ≤ y.time))
    (hgap : (callsOf events).Chain' (fun x y => y.1 < x.1 + wait))
    (tN : Nat) (aN : α) (hlast : (callsOf events).getLast? = some (tN, aN))
    (p q : List (Event α)) (hpq : events = p ++ q) :
    (debounce.run wait p).vars.invoked =
      ((firstTimerFrom (tN + wait) p).map (fun T => (T, aN))).toList :=
  debounce_from_quiet wait hpos hlt events debounce rfl rfl (fun _ _ => Nat.zero_le _)
    hsorted hgap tN aN hlast p q hpq

/-- The burst at 0, 10, 20 ms with `wait = 100`, the event loop coming to the
timers at 120 ms: one invocation, at 120 ms, with the arguments of the third call. -/
theorem debounce_burst_witness :
    (debounce.run 100 sampleBurst).vars.invoked =
      ((firstTimerFrom (20 + 100) sampleBurst).map (fun T => (T, "c"))).toList :=
  debounce_burst 100 (by decide) (by decide) sampleBurst (by simp [sampleBurst, Event.time])
    (by simp [sampleBurst, callsOf]) 20 "c" (by decide) sampleBurst [] (by simp)

/-- C6, as stated, fails. With `delayMs = 2 ^ 31` the delay counts as 0: after one
call at 0 ms `func` is invoked as soon as the event loop comes to the timers, here
at 50 ms. And with `delayMs = 100`, when the event loop comes to the timers only at
150 ms, the burst at 0, 10, 20 ms is answered at 150 ms, not at 120 ms. -/
theorem debounce_early_or_late :
    (debounce.run (2 ^ 31) [Event.call 0 "a", Event.timer 50]).vars.invoked = [(50, "a")] ∧
      (debounce.run 100 [Event.call 0 "a", Event.call 10 "b", Event.call 20 "c",
        Event.timer 150]).vars.invoked = [(150, "c")] := by
  decide

/-! ## Throttle: the cooldown -/

theorem throttle_rel_step {α : Type} (limit : Nat) (func : Action α)
    (hq : ∀ a L, func a L = (L, true)) (hlt : limit < 2 ^ 31)
    (L : EventLoop (ThrottleVars α) Unit) (c : Cooldown α) (hR : ThrottleRel limit L c)
    (e : Event α) (hnow : L.now ≤ e.time) :
    ThrottleRel limit (stepEvent throttle.reset (throttle.wrapper limit func) L e)
        (Cooldown.step limit c e) ∧
      (stepEvent throttle.reset (throttle.wrapper limit func) L e).now = e.time := by
  obtain ⟨hinv, hclosed, hopen⟩ := hR
  have hd := timerDelay_of_lt limit hlt
  cases e with
  | call t a =>
    simp only [Event.time] at hnow
    have hmax : max L.now t = t := by omega
    cases ho : c.openSince with
    | none =>
      obtain ⟨hin, hp⟩ := hclosed ho
      refine ⟨⟨?_, ?_, ?_⟩, ?_⟩
      · simp [stepEvent, throttle.wrapper, hin, hq, EventLoop.setTimeout, Cooldown.step, ho,
          hinv, hmax]
      · intro h
        simp [Cooldown.step, ho] at h
      · intro t0 h
        simp only [Cooldown.step, ho, Option.some.injEq] at h
        subst h
        refine ⟨?_, L.nextId, ?_⟩
        · simp [stepEvent, throttle.wrapper, hin, hq, EventLoop.setTimeout]
        · simp [stepEvent, throttle.wrapper, hin, hq, EventLoop.setTimeout, hp, hd, hmax]
      · simp [stepEvent, throttle.wrapper, hin, hq, EventLoop.setTimeout, hmax, Event.time]
    | some t0 =>
      obtain ⟨hin, i, hp⟩ := hopen t0 ho
      refine ⟨⟨?_, ?_, ?_⟩, ?_⟩
      · simp [stepEvent, throttle.wrapper, hin, Cooldown.step, ho, hinv]
      · intro h
        simp [Cooldown.step, ho] at h
      · intro t1 h
        simp only [Cooldown.step, ho, Option.some.injEq] at h
        subst h
        exact ⟨by simp [stepEvent, throttle.wrapper, hin],
          i, by simp [stepEvent, throttle.wrapper, hin, hp]⟩
      · simp [stepEvent, throttle.wrapper, hin, hmax, Event.time]
  | timer t =>
    simp only [Event.time] at hnow
    have hmax : max L.now t = t := by omega
    cases ho : c.openSince with
    | none =>
      obtain ⟨hin, hp⟩ := hclosed ho
      refine ⟨⟨?_, ?_, ?_⟩, ?_⟩
      · simp [stepEvent, runTimer, hp, earliest, Cooldown.step, ho, hinv]
      · intro _
        simp [stepEvent, runTimer, hp, earliest, hin]
      · intro t0 h
        simp [Cooldown.step, ho] at h
      · simp [stepEvent, runTimer, hp, earliest, hmax, Event.time]
    | some t0 =>
      obtain ⟨hin, i, hp⟩ := hopen t0 ho
      by_cases hdue : t0 + limit ≤ t
      · refine ⟨⟨?_, ?_, ?_⟩, ?_⟩
        · simp [stepEvent, runTimer, hp, earliest, hmax, hdue, throttle.reset, Cooldown.step,
            ho, hinv]
        · intro _
          simp [stepEvent, runTimer, hp, earliest, hmax, hdue, throttle.reset]
        · intro t1 h
          simp [Cooldown.step, ho, hdue] at h
        · simp [stepEvent, runTimer, hp, earliest, hmax, hdue, throttle.reset, Event.time]
      · refine ⟨⟨?_, ?_, ?_⟩, ?_⟩
        · simp [stepEvent, runTimer, hp, earliest, hmax, hdue, Cooldown.step, ho, hinv]
        · intro h
          simp [Cooldown.step, ho, hdue] at h
        · intro t1 h
          simp only [Cooldown.step, ho, hdue, if_false, Option.some.injEq] at h
          subst h
          exact ⟨by simp [stepEvent, runTimer, hp, earliest, hmax, hdue, hin],
            i, by simp [stepEvent, runTimer, hp, earliest, hmax, hdue]⟩
        · simp [stepEvent, runTimer, hp, earliest, hmax, hdue, Event.time]

theorem throttle_rel_fold {α : Type} (limit : Nat) (func : Action α)
    (hq : ∀ a L, func a L = (L, true)) (hlt : limit < 2 ^ 31) :
    ∀ (events : List (Event α)) (L : EventLoop (ThrottleVars α) Unit) (c : Cooldown α),
      ThrottleRel limit L c → (∀ e ∈ events, L.now ≤ e.time) →
      events.Pairwise (fun x y => x.time ≤ y.time) →
      ThrottleRel limit
        (events.foldl (stepEvent throttle.reset (throttle.wrapper limit func)) L)
        (events.foldl (Cooldown.step limit) c) := by
  intro events
  induction events with
  | nil => exact fun _ _ h _ _ => h
  | cons e es ih =>
    intro L c hR hnow hsorted
    rw [List.pairwise_cons] at hsorted
    obtain ⟨hR2, hnow2⟩ := throttle_rel_step limit func hq hlt L c hR e
      (hnow e (List.mem_cons_self _ _))
    simp only [List.foldl_cons]
    refine ih _ _ hR2 ?_ hsorted.2
    intro x hx
    rw [hnow2]
    exact hsorted.1 x hx

/-- C7, amended: for an action that returns normally and at once (the clock does
not move while it runs) and leaves the wrapper alone (it does not call it),
`limit < 2 ^ 31` and a schedule with non-decreasing times, the throttled function
follows the cooldown: the first call invokes `func` within the call, with its
arguments, and opens a cooldown; a call made while a cooldown is open is dropped
and nothing is invoked later on its account; the cooldown is closed when the event
loop comes to the timers at least `limit` after the call that opened it; the first
call made after that invokes `func` again and opens a new cooldown. -/
theorem throttle_cooldown {α : Type} (limit : Nat) (func : Action α)
    (hq : ∀ a L, func a L = (L, true)) (hlt : limit < 2 ^ 31) (events : List (Event α))
    (hsorted : events.Pairwise (fun x y => x.time ≤ y.time)) :
    (throttle.run limit func events).vars.invoked = (Cooldown.run limit events).invoked ∧
      (throttle.run limit func events).vars.inThrottle =
        (Cooldown.run limit events).openSince.isSome := by
  have hR := throttle_rel_fold limit func hq hlt events throttle
    { openSince := none, invoked := [] }
    ⟨rfl, fun _ => ⟨rfl, rfl⟩, fun t0 h => by simp at h⟩
    (fun _ _ => Nat.zero_le _) hsorted
  obtain ⟨hinv, hclosed, hopen⟩ := hR
  refine ⟨hinv, ?_⟩
  cases ho : (Cooldown.run limit events).openSince with
  | none => simpa using (hclosed ho).1
  | some t0 => simpa using (hopen t0 ho).1

/-- Calls at 0, 1, 60, 150 and 160 ms with `limit = 100`, the event loop coming to
the timers at 50 and 100 ms: the calls at 0 and 150 ms invoke `func`, the others are
dropped. -/
theorem throttle_cooldown_witness :
    (throttle.run 100 Action.quiet sampleCalls).vars.invoked =
        (Cooldown.run 100 sampleCalls).invoked ∧
      (throttle.run 100 Action.quiet sampleCalls).vars.inThrottle =
        (Cooldown.run 100 sampleCalls).openSince.isSome :=
  throttle_cooldown 100 Action.quiet (fun _ _ => rfl) (by decide) sampleCalls
    (by simp [sampleCalls, Event.time])

/-- The cooldown of the sample schedule: invocations at 0 and 150 ms, and a
cooldown open since 150 ms. -/
theorem cooldown_sampleCalls :
    (Cooldown.run 100 sampleCalls).invoked = [(0, "a"), (150, "d")] ∧
      (Cooldown.run 100 sampleCalls).openSince = some 150 := by
  decide

/-- C7, as stated, fails. With `windowMs = 100`, when the event loop does not come
to the timers in between, a call at 150 ms is dropped although more than 100 ms
have passed since the call at 0 ms. With an action that throws, the call at 1 ms is
not dropped: no cooldown was opened. With `windowMs = 2 ^ 31` the delay of the timer
counts as 0, and a call at 50 ms invokes the action again. With an action that
calls the wrapper itself two timers are started by one call; the second one, run
at 160 ms, ends the cooldown opened at 150 ms, and the call at 170 ms is not
dropped. With an action that takes 30 ms the timer is started at 30 ms: it is not
due when the event loop comes to the timers at 100 ms, and the call at 110 ms is
dropped. -/
theorem throttle_late_throwing_or_huge :
    (throttle.run 100 Action.quiet
        [Event.call 0 "a", Event.call 150 "b"]).vars.invoked = [(0, "a")] ∧
      (throttle.run 100 Action.throwing
        [Event.call 0 "a", Event.call 1 "b"]).vars.invoked = [(0, "a"), (1, "b")] ∧
      (throttle.run (2 ^ 31) Action.quiet
        [Event.call 0 "a", Event.timer 49, Event.call 50 "b"]).vars.invoked =
        [(0, "a"), (50, "b")] ∧
      (throttle.run 100 (Action.reentrant 100)
        [Event.call 0 "a", Event.timer 100, Event.call 150 "b", Event.timer 160,
          Event.call 170 "c"]).vars.invoked =
        [(0, "a"), (0, "a"), (150, "b"), (150, "b"), (170, "c"), (170, "c")] ∧
      (throttle.run 100 (Action.slow 30)
        [Event.call 0 "a", Event.timer 100, Event.call 110 "b"]).vars.invoked =
        [(0, "a")] := by
  decide

theorem throttle_clock_inv {α : Type} (limit : Nat) (L : EventLoop (ThrottleVars α) Unit)
    (hI : ThrottleInv limit L) (n : Nat) (hn : L.now ≤ n) :
    ThrottleInv limit { L with now := n } := by
  obtain ⟨h1, h2, h3⟩ := hI
  refine ⟨?_, h2, h3⟩
  intro hin
  refine ⟨(h1 hin).1, ?_⟩
  intro e he
  exact le_trans ((h1 hin).2 e he) hn

theorem throttle_wrapper_inv {α : Type} (limit : Nat) (func : Action α)
    (hf : ∀ a L, (func a L).2 = true ∧ ∃ n, L.now ≤ n ∧ (func a L).1 = { L with now := n })
    (hlt : limit < 2 ^ 31) (a : α)
    (L : EventLoop (ThrottleVars α) Unit) (hI : ThrottleInv limit L) :
    ThrottleInv limit (throttle.wrapper limit func a L) := by
  obtain ⟨h1, h2, h3⟩ := hI
  have hd := timerDelay_of_lt limit hlt
  cases hin : L.vars.inThrottle with
  | true =>
    have hw : throttle.wrapper limit func a L = L := by simp [throttle.wrapper, hin]
    rw [hw]
    exact ⟨h1, h2, h3⟩
  | false =>
    obtain ⟨hp, hlast⟩ := h1 hin
    obtain ⟨hret, n, hn, hstate⟩ := hf a
      { now := L.now, nextId := L.nextId, pending := [],
        vars := { inThrottle := false, invoked := L.vars.invoked ++ [(L.now, a)] } }
    have hn2 : L.now ≤ n := hn
    have hw : throttle.wrapper limit func a L =
        { now := n, nextId := L.nextId + 1, pending := [⟨L.nextId, n + limit, ()⟩],
          vars := { inThrottle := true, invoked := L.vars.invoked ++ [(L.now, a)] } } := by
      simp [throttle.wrapper, hin, hret, hstate, EventLoop.setTimeout, hp, hd]
    rw [hw]
    refine ⟨?_, ?_, ?_⟩
    · intro hc
      exact absurd hc (by simp)
    · intro _
      refine ⟨L.nextId, n + limit, (L.now, a), rfl, by simp, ?_⟩
      show L.now + limit ≤ n + limit
      omega
    · show List.Chain' (fun x y => x.1 + limit ≤ y.1) (L.vars.invoked ++ [(L.now, a)])
      rw [List.chain'_append]
      refine ⟨h3, by simp, ?_⟩
      intro x hx y hy
      simp only [List.head?_cons, Option.mem_def, Option.some.injEq] at hy
      subst hy
      exact hlast x hx

theorem throttle_runTimer_inv {α : Type} (limit : Nat) (L : EventLoop (ThrottleVars α) Unit)
    (hI : ThrottleInv limit L) : ThrottleInv limit (runTimer throttle.reset L) := by
  obtain ⟨h1, h2, h3⟩ := hI
  cases hin : L.vars.inThrottle with
  | false =>
    have hp := (h1 hin).1
    have hstep : runTimer throttle.reset L = L := by simp [runTimer, hp, earliest]
    rw [hstep]
    exact ⟨h1, h2, h3⟩
  | true =>
    obtain ⟨i, d, e, hp, hlast, hle⟩ := h2 hin
    by_cases hdue : d ≤ L.now
    · have hstep : runTimer throttle.reset L =
          { L with pending := [], vars := { L.vars with inThrottle := false } } := by
        simp [runTimer, hp, earliest, hdue, throttle.reset]
      rw [hstep]
      refine ⟨?_, ?_, h3⟩
      · intro _
        refine ⟨rfl, ?_⟩
        intro e1 he1
        simp only at he1
        rw [hlast] at he1
        cases he1
        exact le_trans hle hdue
      · intro hc
        exact absurd hc (by simp)
    · have hstep : runTimer throttle.reset L = L := by simp [runTimer, hp, earliest, hdue]
      rw [hstep]
      exact ⟨h1, h2, h3⟩

theorem throttle_step_inv {α : Type} (limit : Nat) (func : Action α)
    (hf : ∀ a L, (func a L).2 = true ∧ ∃ n, L.now ≤ n ∧ (func a L).1 = { L with now := n })
    (hlt : limit < 2 ^ 31)
    (L : EventLoop (ThrottleVars α) Unit) (hI : ThrottleInv limit L) (ev : Event α) :
    ThrottleInv limit (stepEvent throttle.reset (throttle.wrapper limit func) L ev) := by
  cases ev with
  | call t a =>
    simp only [stepEvent]
    exact throttle_wrapper_inv limit func hf hlt a _
      (throttle_clock_inv limit _ hI _ (le_max_left _ _))
  | timer t =>
    simp only [stepEvent]
    exact throttle_runTimer_inv limit _ (throttle_clock_inv limit _ hI _ (le_max_left _ _))

theorem throttle_fold_inv {α : Type} (limit : Nat) (func : Action α)
    (hf : ∀ a L, (func a L).2 = true ∧ ∃ n, L.now ≤ n ∧ (func a L).1 = { L with now := n })
    (hlt : limit < 2 ^ 31) (events : List (Event α)) :
    ∀ L : EventLoop (ThrottleVars α) Unit, ThrottleInv limit L →
      ThrottleInv limit
        (events.foldl (stepEvent throttle.reset (throttle.wrapper limit func)) L) := by
  induction events with
  | nil => exact fun _ h => h
  | cons ev evs ih => exact fun L h => ih _ (throttle_step_inv limit func hf hlt L h ev)

theorem throttle_run_inv {α : Type} (limit : Nat) (func : Action α)
    (hf : ∀ a L, (func a L).2 = true ∧ ∃ n, L.now ≤ n ∧ (func a L).1 = { L with now := n })
    (hlt : limit < 2 ^ 31) (events : List (Event α)) :
    ThrottleInv limit (throttle.run limit func events) := by
  refine throttle_fold_inv limit func hf hlt events throttle ⟨?_, ?_, ?_⟩
  · intro _
    exact ⟨rfl, by simp [throttle]⟩
  · intro hc
    exact absurd hc (by simp [throttle])
  · simp [throttle]

/-- C8, as stated, fails. With `windowMs = 100`, a call at 0 ms, the timer run at
100 ms and a call at 100 ms give two invocations exactly 100 ms apart. With an action
that throws, calls at 5 and 6 ms both invoke it. With `windowMs = 2 ^ 31` the delay
of the timer counts as 0, and calls at 10 and 30 ms both invoke the action. With an
action that calls the wrapper itself, one call at 7 ms invokes it twice. -/
theorem throttle_invocations_limit_apart :
    (throttle.run 100 Action.quiet
        [Event.call 0 "a", Event.timer 100, Event.call 100 "b"]).vars.invoked =
        [(0, "a"), (100, "b")] ∧
      (throttle.run 100 Action.throwing
        [Event.call 5 "a", Event.call 6 "b"]).vars.invoked = [(5, "a"), (6, "b")] ∧
      (throttle.run (2 ^ 31) Action.quiet
        [Event.call 10 "a", Event.timer 20, Event.call 30 "b"]).vars.invoked =
        [(10, "a"), (30, "b")] ∧
      (throttle.run 100 (Action.reentrant 100) [Event.call 7 "a"]).vars.invoked =
        [(7, "a"), (7, "a")] := by
  decide

/-- C8, amended: for an action that returns normally, after whatever time, and
leaves the wrapper alone (it does not call it), and `limit < 2 ^ 31`, whatever the
schedule, of any two invocations of `func` the later one comes at least `limit`
after the earlier one: no two invocations are less than `limit` apart. -/
theorem throttle_spacing {α : Type} (limit : Nat) (func : Action α)
    (hf : ∀ a L, (func a L).2 = true ∧ ∃ n, L.now ≤ n ∧ (func a L).1 = { L with now := n })
    (hlt : limit < 2 ^ 31) (events : List (Event α)) :
    (throttle.run limit func events).vars.invoked.Pairwise
      (fun x y => x.1 + limit ≤ y.1) := by
  have h := (throttle_run_inv limit func hf hlt events).2.2
  haveI : IsTrans (Nat × α) (fun x y => x.1 + limit ≤ y.1) :=
    ⟨fun x y z hxy hyz => by
      have h1 : x.1 + limit ≤ y.1 := hxy
      have h2 : y.1 + limit ≤ z.1 := hyz
      show x.1 + limit ≤ z.1
      omega⟩
  exact List.chain'_iff_pairwise.mp h

/-- A schedule with `limit = 100` and an action that takes 30 ms. -/
theorem throttle_spacing_witness :
    (throttle.run 100 (Action.slow 30) sampleSlowCalls).vars.invoked.Pairwise
      (fun x y => x.1 + 100 ≤ y.1) :=
  throttle_spacing 100 (Action.slow 30)
    (fun _ L => ⟨rfl, L.now + 30, Nat.le_add_right _ _, rfl⟩) (by decide) sampleSlowCalls

/-- The invocations of a schedule with an action that takes 30 ms: the cooldown
opened by the call at 0 ms lasts until the event loop comes to the timers at
130 ms. -/
theorem throttle_slow_calls :
    (throttle.run 100 (Action.slow 30) sampleSlowCalls).vars.invoked =
      [(0, "a"), (140, "c")] := by
  decide

/-! ## The security grid: which ticks end -/

theorem toFinset_append_cons_of_mem (act : List Nat) (x : Nat) (l : List Nat) (hx : x ∈ act) :
    (act ++ x :: l).toFinset = (act ++ l).toFinset := by
  ext y
  simp only [List.mem_toFinset, List.mem_append, List.mem_cons]
  constructor
  · rintro (h | rfl | h)
    · exact Or.inl h
    · exact Or.inl hx
    · exact Or.inr h
  · rintro (h | h)
    · exact Or.inl h
    · exact Or.inr (Or.inr h)

/-- The loop ends within the given values when the indices already chosen and those
still to come make up at least `numActive` distinct indices; it then leaves exactly
`numActive` distinct items active. -/
theorem whileLoop_ends (numActive : Nat) :
    ∀ (draws : List Nat) (act : List Nat) (items : List (List String)),
      (∀ i ∈ draws, i < items.length) → act.Nodup → (∀ i ∈ act, i < items.length) →
      (∀ i cls, items[i]? = some cls → ("active" ∈ cls ↔ i ∈ act)) →
      act.length ≤ numActive →
      numActive ≤ (act ++ draws).toFinset.card →
      ∃ act2 items2, initSecurityGrid.whileLoop numActive draws act items = some (act2, items2) ∧
        act2.length = numActive ∧ act2.Nodup ∧ (∀ i ∈ act2, i < items.length) ∧
        items2.length = items.length ∧
        (∀ i cls, items2[i]? = some cls → ("active" ∈ cls ↔ i ∈ act2)) := by
  intro draws
  induction draws with
  | nil =>
    intro act items _ hnd hb hact hle hcard
    simp only [List.append_nil, List.toFinset_card_of_nodup hnd] at hcard
    have hnot : ¬ act.length < numActive := by omega
    exact ⟨act, items, by simp [initSecurityGrid.whileLoop, hnot], by omega, hnd, hb, rfl, hact⟩
  | cons d rest ih =>
    intro act items hdr hnd hb hact hle hcard
    have hd : d < items.length := hdr d (List.mem_cons_self _ _)
    have hrest : ∀ i ∈ rest, i < items.length := fun i hi => hdr i (List.mem_cons_of_mem _ hi)
    by_cases hlt : act.length < numActive
    · by_cases hmem : d ∈ act
      · have hstep : initSecurityGrid.whileLoop numActive (d :: rest) act items =
            initSecurityGrid.whileLoop numActive rest act items := by
          simp [initSecurityGrid.whileLoop, hlt, hmem]
        rw [hstep]
        apply ih act items hrest hnd hb hact hle
        rw [toFinset_append_cons_of_mem _ _ _ hmem] at hcard
        exact hcard
      · have hstep : initSecurityGrid.whileLoop numActive (d :: rest) act items =
            initSecurityGrid.whileLoop numActive rest (act ++ [d])
              (List.modify (fun cls => classListAdd cls "active") d items) := by
          simp [initSecurityGrid.whileLoop, hlt, hmem]
        have hlenm : (List.modify (fun cls => classListAdd cls "active") d items).length =
            items.length := List.length_modify _ _ _
        rw [hstep]
        have := ih (act ++ [d])
          (List.modify (fun cls => classListAdd cls "active") d items)
          (by rw [hlenm]; exact hrest)
          (by
            rw [List.nodup_append]
            refine ⟨hnd, List.nodup_singleton _, ?_⟩
            intro a ha hb2
            rw [List.mem_singleton] at hb2
            subst hb2
            exact hmem ha)
          (by
            intro i hi
            rw [hlenm]
            rcases List.mem_append.mp hi with h | h
            · exact hb i h
            · rw [List.mem_singleton] at h
              subst h
              exact hd)
          (by
            intro i cls hcls
            rw [List.getElem?_modify] at hcls
            cases hi : items[i]? with
            | none => simp [hi] at hcls
            | some c =>
              have hc := hact i c hi
              simp only [hi, Option.map_eq_map, Option.map_some', Option.some.injEq] at hcls
              subst hcls
              by_cases heq : d = i
              · subst heq
                simp [mem_classListAdd]
              · simp only [heq, if_false, List.mem_append, List.mem_singleton]
                rw [hc]
                constructor
                · exact Or.inl
                · rintro (h | h)
                  · exact h
                  · exact absurd h.symm heq)
          (by simp only [List.length_append, List.length_singleton]; omega)
          (by
            rw [List.append_assoc]
            simpa using hcard)
        rw [hlenm] at this
        exact this
    · have hstep : initSecurityGrid.whileLoop numActive (d :: rest) act items =
          some (act, items) := by
        simp [initSecurityGrid.whileLoop, hlt]
      exact ⟨act, items, hstep, by omega, hnd, hb, rfl, hact⟩

/-- The loop is still running after all the given values when the indices already
chosen and those given make up fewer than `numActive` distinct indices. -/
theorem whileLoop_runs_on (numActive : Nat) :
    ∀ (draws : List Nat) (act : List Nat) (items : List (List String)), act.Nodup →
      (act ++ draws).toFinset.card < numActive →
      initSecurityGrid.whileLoop numActive draws act items = none := by
  intro draws
  induction draws with
  | nil =>
    intro act items hnd hcard
    simp only [List.append_nil, List.toFinset_card_of_nodup hnd] at hcard
    simp [initSecurityGrid.whileLoop, hcard]
  | cons d rest ih =>
    intro act items hnd hcard
    have hsub : act.toFinset ⊆ (act ++ d :: rest).toFinset := by
      intro x hx
      rw [List.mem_toFinset] at hx ⊢
      exact List.mem_append_left _ hx
    have hlt : act.length < numActive := by
      have h1 := Finset.card_le_card hsub
      rw [List.toFinset_card_of_nodup hnd] at h1
      omega
    by_cases hmem : d ∈ act
    · have hstep : initSecurityGrid.whileLoop numActive (d :: rest) act items =
          initSecurityGrid.whileLoop numActive rest act items := by
        simp [initSecurityGrid.whileLoop, hlt, hmem]
      rw [hstep]
      apply ih act items hnd
      rw [toFinset_append_cons_of_mem _ _ _ hmem] at hcard
      exact hcard
    · have hstep : initSecurityGrid.whileLoop numActive (d :: rest) act items =
          initSecurityGrid.whileLoop numActive rest (act ++ [d])
            (List.modify (fun cls => classListAdd cls "active") d items) := by
        simp [initSecurityGrid.whileLoop, hlt, hmem]
      rw [hstep]
      apply ih
      · rw [List.nodup_append]
        refine ⟨hnd, List.nodup_singleton _, ?_⟩
        intro a ha hb2
        rw [List.mem_singleton] at hb2
        subst hb2
        exact hmem ha
      · rw [List.append_assoc]
        simpa using hcard

/-- With fewer grid items than `numActive` the tick never ends, whatever the
values of `Math.random()`. -/
theorem securityGrid_few_items_never_end (gridItems : List (List String)) (first : Fin 3)
    (indices : List (Fin gridItems.length)) (hfew : gridItems.length < first.val + 2) :
    initSecurityGrid.tick gridItems first indices = none := by
  simp only [initSecurityGrid.tick]
  apply whileLoop_runs_on _ _ _ _ List.nodup_nil
  have hsub : ([] ++ indices.map (fun i : Fin gridItems.length => i.val)).toFinset ⊆
      Finset.range gridItems.length := by
    intro x hx
    simp only [List.nil_append, List.mem_toFinset, List.mem_map] at hx
    obtain ⟨r, -, rfl⟩ := hx
    exact Finset.mem_range.mpr r.isLt
  have h1 := Finset.card_le_card hsub
  rw [Finset.card_range] at h1
  omega

/-- C11: on a page with exactly one grid item the interval is set up, and a tick
never ends: whatever value fixes `numActive` and however many values of
`randomIndex` are drawn, the loop is still running. -/
theorem securityGrid_one_item_never_ends (cls : List String) (first : Fin 3)
    (indices : List (Fin [cls].length)) :
    initSecurityGrid.installed [cls] = true ∧
      initSecurityGrid.tick [cls] first indices = none := by
  refine ⟨by simp [initSecurityGrid.installed], ?_⟩
  apply securityGrid_few_items_never_end
  simp only [List.length_singleton]
  omega

/-- When the indices drawn take at least `numActive` distinct values the tick ends;
the number of chosen indices is `numActive`, between 2 and 4; they are distinct
indices of grid items; and afterwards a grid item carries the class `active`
exactly when its index is one of them. -/
theorem securityGrid_tick_ends (gridItems : List (List String)) (first : Fin 3)
    (indices : List (Fin gridItems.length))
    (hdistinct : first.val + 2 ≤ ((indices.map (fun i => i.val)).dedup).length) :
    ∃ act items2, initSecurityGrid.tick gridItems first indices = some (act, items2) ∧
      act.length = first.val + 2 ∧ 2 ≤ act.length ∧ act.length ≤ 4 ∧ act.Nodup ∧
      (∀ i ∈ act, i < gridItems.length) ∧ items2.length = gridItems.length ∧
      (∀ i cls, items2[i]? = some cls → ("active" ∈ cls ↔ i ∈ act)) := by
  have hlen : (gridItems.map (fun cls => classListRemove cls "active")).length =
      gridItems.length := List.length_map _ _
  obtain ⟨act, items2, hrun, hl, hnd, hb, hlen2, hact⟩ :=
    whileLoop_ends (first.val + 2) (indices.map (fun i => i.val)) []
      (gridItems.map (fun cls => classListRemove cls "active"))
      (by
        intro i hi
        rw [hlen]
        obtain ⟨r, -, rfl⟩ := List.mem_map.mp hi
        exact r.isLt)
      List.nodup_nil (by simp)
      (by
        intro i cls hcls
        rw [List.getElem?_map] at hcls
        cases hi : gridItems[i]? with
        | none => simp [hi] at hcls
        | some c =>
          simp only [hi, Option.map_some', Option.some.injEq] at hcls
          subst hcls
          simp [mem_classListRemove])
      (by simp)
      (by
        rw [List.nil_append, List.card_toFinset]
        exact hdistinct)
  have h3 := first.isLt
  rw [hlen] at hb hlen2
  exact ⟨act, items2, hrun, hl, by omega, by omega, hnd, hb, hlen2, hact⟩

/-- Six grid items; three are wanted and the indices drawn are 0, 0, 3, 1. -/
theorem securityGrid_sample_tick :
    initSecurityGrid.tick sampleGrid 1 ([0, 0, 3, 1] : List (Fin 6)) =
      some ([0, 3, 1], [["grid-item", "active"], ["grid-item", "active"], ["grid-item"],
        ["grid-item", "active"], ["grid-item"], ["grid-item"]]) := by
  decide

end ByteForward
